import Mathlib

/-!
Verification development for the core of an LLVM-style peephole-optimization
verifier (type constraint gathering and enumeration in `alive/typing.py`,
SMT translation and refinement checking in `smtinterp.py`).

The Python source is shallowly embedded: classes become structures, the
stateful SMT translator becomes explicit state passing, fallible code
returns `Except`, and lazy generators become lists.  The file `language.py`
(IR node classes, the ordering on types, and `subterms`) is not part of the
sources; the few places that depend on it are modelled from the
specification and marked as such in their doc comments.
-/

namespace AliveSpec

/-- Concrete IR types, from `language.py` as described by the spec (section 3):
`IntType(width)`, the four float types, and `PtrType`. -/
inductive Ty where
  | int (w : Nat)
  | half
  | single
  | double
  | x86fp80
  | ptr
deriving DecidableEq, Repr

/-- Pointer width constant (`AbstractTypeModel.pointer_width` in
`alive/typing.py`). -/
def pointer_width : Nat := 64

/-- Size of a type in bits, following `AbstractTypeModel.bits`:
integers report their width, `X86FP80Type` is 80 bits, the other float
types report exponent plus fraction bits (16, 32, 64), pointers report
`pointer_width`. -/
def Ty.bits : Ty → Nat
  | .int w => w
  | .half => 16
  | .single => 32
  | .double => 64
  | .x86fp80 => 80
  | .ptr => pointer_width

/-- Constraint classes, from `alive/typing.py`:
`FIRST_CLASS, NUMBER, FLOAT, INT_PTR, PTR, INT, BOOL = range(7)`. -/
inductive ConClass where
  | FIRST_CLASS
  | NUMBER
  | FLOAT
  | INT_PTR
  | PTR
  | INT
  | BOOL
deriving DecidableEq, Repr, Fintype

/-- Numeric code of a constraint class, matching the `range(8)` assignment
in the source. -/
def ConClass.code : ConClass → Nat
  | .FIRST_CLASS => 0
  | .NUMBER => 1
  | .FLOAT => 2
  | .INT_PTR => 3
  | .PTR => 4
  | .INT => 5
  | .BOOL => 6

/-- Human-readable names of constraint classes (`_constraint_name`). -/
def constraint_name : ConClass → String
  | .FIRST_CLASS => "first class"
  | .NUMBER => "integer or floating-point"
  | .FLOAT => "floating-point"
  | .INT_PTR => "integer or pointer"
  | .PTR => "pointer"
  | .INT => "integer"
  | .BOOL => "i1"

/-- Meet of two constraint classes (`most_specific` in `alive/typing.py`).
Returns `none` for incompatible classes. -/
def most_specific (a b : ConClass) : Option ConClass :=
  let c1 := if a.code > b.code then b else a
  let c2 := if a.code > b.code then a else b
  if c1 = .NUMBER ∧ c2 = .PTR then
    none
  else if c1 = .NUMBER ∧ c2 = .INT_PTR then
    some .INT
  else if c1 = .FLOAT ∧ c2 ≠ .FLOAT then
    none
  else if c1 = .PTR ∧ c2 ≠ .PTR then
    none
  else
    some c2

/-- Terms are identified by object identity in the source; the state model
only needs an identity, so a numeric id suffices. -/
abbrev TermId := Nat

/-- The slice of `TypeConstraints` state that `constrain` touches: the
union-find representative map (left unchanged by `constrain`) and the
per-representative constraint map, whose `defaultdict` default is
`FIRST_CLASS`. -/
structure ConstrainState where
  rep : TermId → TermId
  constraints : TermId → ConClass

/-- One call of `TypeConstraints.constrain`: look up the representative,
meet the stored class with the new one, fail on an incompatible meet,
otherwise store the result. -/
def constrain (s : ConstrainState) (t : TermId) (con : ConClass) :
    Except String ConstrainState :=
  let r := s.rep t
  let con0 := s.constraints r
  match most_specific con0 con with
  | none =>
      .error ("Incompatible constraints for " ++ toString t ++ ": "
        ++ constraint_name con ++ " and " ++ constraint_name con0)
  | some c =>
      .ok { s with constraints := fun x => if x = r then c else s.constraints x }

/-- Whether an `Except` value is a success. -/
def exceptOk {ε α : Type} : Except ε α → Bool
  | .ok _ => true
  | .error _ => false

/-- Two `constrain` calls in sequence. -/
def constrain2 (s : ConstrainState) (t : TermId) (c1 c2 : ConClass) :
    Except String ConstrainState :=
  (constrain s t c1).bind (fun s1 => constrain s1 t c2)

theorem most_specific_comm_bind :
    ∀ c0 c1 c2 : ConClass,
      (most_specific c0 c1).bind (fun c => most_specific c c2)
        = (most_specific c0 c2).bind (fun c => most_specific c c1) := by
  decide

theorem constrain_eq_error (s : ConstrainState) (t : TermId) (c : ConClass)
    (h : most_specific (s.constraints (s.rep t)) c = none) :
    constrain s t c
      = .error ("Incompatible constraints for " ++ toString t ++ ": "
          ++ constraint_name c ++ " and " ++ constraint_name (s.constraints (s.rep t))) := by
  simp only [constrain]
  rw [h]

theorem constrain_eq_ok (s : ConstrainState) (t : TermId) (c d : ConClass)
    (h : most_specific (s.constraints (s.rep t)) c = some d) :
    constrain s t c
      = .ok ⟨s.rep, fun x => if x = s.rep t then d else s.constraints x⟩ := by
  simp only [constrain]
  rw [h]

theorem constrain_upd_reads (s : ConstrainState) (t : TermId) (d : ConClass) :
    (ConstrainState.mk s.rep
        (fun x => if x = s.rep t then d else s.constraints x)).constraints
      ((ConstrainState.mk s.rep
        (fun x => if x = s.rep t then d else s.constraints x)).rep t) = d := by
  simp

/-- C8: running `constrain(t, c1)` then `constrain(t, c2)` from the same
starting state yields the same final constraint map as the reversed order,
and one order raises an incompatible-constraints error exactly when the
other does. -/
theorem constrain_order_irrelevant (s : ConstrainState) (t : TermId)
    (c1 c2 : ConClass) :
    exceptOk (constrain2 s t c1 c2) = exceptOk (constrain2 s t c2 c1)
  ∧ ∀ s1 s2, constrain2 s t c1 c2 = .ok s1 → constrain2 s t c2 c1 = .ok s2 →
      ∀ u, s1.constraints u = s2.constraints u := by
  have hcomm := most_specific_comm_bind (s.constraints (s.rep t)) c1 c2
  unfold constrain2
  rcases h1 : most_specific (s.constraints (s.rep t)) c1 with _ | d1 <;>
    rcases h2 : most_specific (s.constraints (s.rep t)) c2 with _ | d2 <;>
      simp only [h1, h2, Option.none_bind, Option.some_bind] at hcomm
  · rw [constrain_eq_error s t c1 h1, constrain_eq_error s t c2 h2]
    exact ⟨rfl, fun s1 s2 hh => by cases hh⟩
  · rw [constrain_eq_error s t c1 h1, constrain_eq_ok s t c2 d2 h2]
    have h21 : most_specific d2 c1 = none := hcomm.symm
    simp only [Except.bind]
    rw [constrain_eq_error _ t c1 (by rw [constrain_upd_reads]; exact h21)]
    exact ⟨rfl, fun s1 s2 hh => by cases hh⟩
  · rw [constrain_eq_error s t c2 h2, constrain_eq_ok s t c1 d1 h1]
    have h12 : most_specific d1 c2 = none := hcomm
    simp only [Except.bind]
    rw [constrain_eq_error _ t c2 (by rw [constrain_upd_reads]; exact h12)]
    exact ⟨rfl, fun s1 s2 _ hh => by cases hh⟩
  · rw [constrain_eq_ok s t c1 d1 h1, constrain_eq_ok s t c2 d2 h2]
    simp only [Except.bind]
    rcases h12 : most_specific d1 c2 with _ | e1
    · have h21 : most_specific d2 c1 = none := by rw [h12] at hcomm; exact hcomm.symm
      rw [constrain_eq_error _ t c2 (by rw [constrain_upd_reads]; exact h12),
        constrain_eq_error _ t c1 (by rw [constrain_upd_reads]; exact h21)]
      exact ⟨rfl, fun s1 s2 hh => by cases hh⟩
    · have h21 : most_specific d2 c1 = some e1 := by rw [h12] at hcomm; exact hcomm.symm
      rw [constrain_eq_ok _ t c2 e1 (by rw [constrain_upd_reads]; exact h12),
        constrain_eq_ok _ t c1 e1 (by rw [constrain_upd_reads]; exact h21)]
      refine ⟨rfl, ?_⟩
      intro s1 s2 hs1 hs2 u
      cases hs1
      cases hs2
      by_cases hu : u = s.rep t <;> simp [hu]

/-- Witness for C8 at a concrete state: constraining term 0 first with
NUMBER then INT_PTR, or in the other order, produces the same map in both
orders (the meet is INT either way). -/
theorem constrain_order_irrelevant_witness :
    ∀ u, (ConstrainState.mk id
        (fun x => if x = 0 then ConClass.INT
          else if x = 0 then ConClass.NUMBER else ConClass.FIRST_CLASS)).constraints u
      = (ConstrainState.mk id
        (fun x => if x = 0 then ConClass.INT
          else if x = 0 then ConClass.INT_PTR else ConClass.FIRST_CLASS)).constraints u :=
  (constrain_order_irrelevant
    (ConstrainState.mk id (fun _ => ConClass.FIRST_CLASS)) 0 .NUMBER .INT_PTR).2
    _ _ rfl rfl

/-- Python `xrange(a, b)` as a list: the integers from `a` up to but not
including `b` in increasing order. -/
def xrange (a b : Nat) : List Nat :=
  (List.range (b - a)).map (a + ·)

/-- Integer widths generated by `AbstractTypeModel.int_types(min_width,
max_width)`: width 4 if it lies in `[min_width, max_width)`, then 8
likewise, then `xrange(min_width, min(max_width, 4))`,
`xrange(max(min_width, 5), min(max_width, 8))`, and
`xrange(max(min_width, 9), max_width)`. -/
def intWidths (min_width max_width : Nat) : List Nat :=
  (if min_width ≤ 4 ∧ 4 < max_width then [4] else [])
    ++ (if min_width ≤ 8 ∧ 8 < max_width then [8] else [])
    ++ xrange min_width (min max_width 4)
    ++ xrange (max min_width 5) (min max_width 8)
    ++ xrange (max min_width 9) max_width

/-- The `IntType` stream of `AbstractTypeModel.int_types`. -/
def int_types (min_width max_width : Nat) : List Ty :=
  (intWidths min_width max_width).map Ty.int

theorem mem_xrange (a b w : Nat) : w ∈ xrange a b ↔ a ≤ w ∧ w < b := by
  simp only [xrange, List.mem_map, List.mem_range]
  constructor
  · rintro ⟨i, hi, rfl⟩
    omega
  · rintro ⟨h1, h2⟩
    exact ⟨w - a, by omega, by omega⟩

theorem nodup_xrange (a b : Nat) : (xrange a b).Nodup := by
  refine (List.nodup_range _).map ?_
  intro x y h
  simp only at h
  omega

theorem count_xrange (a b w : Nat) :
    (xrange a b).count w = if a ≤ w ∧ w < b then 1 else 0 := by
  by_cases h : a ≤ w ∧ w < b
  · rw [if_pos h]
    exact List.nodup_iff_count_eq_one.1 (nodup_xrange a b) w ((mem_xrange a b w).2 h)
  · rw [if_neg h]
    exact List.count_eq_zero.2 (fun hm => h ((mem_xrange a b w).1 hm))

theorem count_ite_single (c : Prop) [Decidable c] (a w : Nat) :
    (if c then [a] else []).count w = if c ∧ w = a then 1 else 0 := by
  split
  · rename_i hc
    simp [List.count_singleton', hc, eq_comm]
  · rename_i hc
    simp [hc]

theorem count_intWidths (a b w : Nat) :
    (intWidths a b).count w
      = (if (a ≤ 4 ∧ 4 < b) ∧ w = 4 then 1 else 0)
        + (if (a ≤ 8 ∧ 8 < b) ∧ w = 8 then 1 else 0)
        + (if a ≤ w ∧ w < min b 4 then 1 else 0)
        + (if max a 5 ≤ w ∧ w < min b 8 then 1 else 0)
        + (if max a 9 ≤ w ∧ w < b then 1 else 0) := by
  simp only [intWidths, List.count_append, count_ite_single, count_xrange]

/-- C9: over the full range `[1, int_limit)` the integer-width enumeration
is exactly: 4 if inside the range, then 8 if inside, then the widths 1..3
in increasing order, then 5..7 in increasing order, then 9..int_limit-1 in
increasing order; and every width of the range appears exactly once. -/
theorem int_types_full_range (L : Nat) :
    intWidths 1 L = (if 4 < L then [4] else []) ++ (if 8 < L then [8] else [])
        ++ xrange 1 (min L 4) ++ xrange 5 (min L 8) ++ xrange 9 L
  ∧ ∀ w, (intWidths 1 L).count w = if 1 ≤ w ∧ w < L then 1 else 0 := by
  constructor
  · have h5 : max 1 5 = 5 := rfl
    have h9 : max 1 9 = 9 := rfl
    have c4 : (1 ≤ 4 ∧ 4 < L) ↔ (4 < L) := by omega
    have c8 : (1 ≤ 8 ∧ 8 < L) ↔ (8 < L) := by omega
    simp only [intWidths, h5, h9, if_congr c4 rfl rfl, if_congr c8 rfl rfl]
  · intro w
    rw [count_intWidths]
    split_ifs <;> omega

/-- Pointwise update of a finite map represented as a function. -/
def updateFn (f : Nat → Option Nat) (k : Nat) (v : Option Nat) : Nat → Option Nat :=
  fun x => if x = k then v else f x

/-- Processing of one width-equality pair in `get_type_model`
(`alive/typing.py` lines 322-332): canonicalize the pair so `va < vb`; if
`vb` is already in the map, first point `va` at the entry of `vb`; then
point `vb` at `va`. -/
def widthEqualityStep (we : Nat → Option Nat) (p : Nat × Nat) : Nat → Option Nat :=
  let va := if p.1 > p.2 then p.2 else p.1
  let vb := if p.1 > p.2 then p.1 else p.2
  let we1 := match we vb with
    | some w => updateFn we va (some w)
    | none => we
  updateFn we1 vb (some va)

/-- The `width_equality` map built by `get_type_model` from the set of
width-equality pairs.  The source iterates over a Python set, whose order
is unspecified; the iteration order is made explicit as a list. -/
def buildWidthEquality (pairs : List (Nat × Nat)) : Nat → Option Nat :=
  pairs.foldl widthEqualityStep (fun _ => none)

/-- One chain-following loop of `AbstractTypeModel.width_equal_tyvars`,
made total with explicit fuel.  The source `while` loop can fail to
terminate when the built map has a cycle, which some pair orders produce;
on decreasing maps fuel `v2 + 1` is enough. -/
def widthEqualChain (we : Nat → Option Nat) : Nat → Nat → Nat → Bool
  | 0, _, _ => false
  | fuel + 1, v1, v2 =>
    match we v2 with
    | none => false
    | some v2' => if v1 = v2' then true else widthEqualChain we fuel v1 v2'

/-- `AbstractTypeModel.width_equal_tyvars`: swap so the walk starts from
the larger variable and follow the `width_equality` chain. -/
def width_equal_tyvars (we : Nat → Option Nat) (fuel : Nat) (a b : Nat) : Bool :=
  let v1 := if a > b then b else a
  let v2 := if a > b then a else b
  widthEqualChain we fuel v1 v2

/-- The width-equality relation recorded by the constraint gatherer: two
type variables are in the same width-equality class when the equivalence
closure of the recorded pairs relates them. -/
def sameWidthClass (pairs : List (Nat × Nat)) (a b : Nat) : Prop :=
  Relation.EqvGen (fun x y => (x, y) ∈ pairs) a b

/-- C6 counterexample: with width-equality pairs (1,2) and (2,3) (in this
or the reversed order), variable 3 is mapped to 2, but the smallest member
of its width-equality class {1,2,3} is 1, and 1 is distinct from 2.  So
`width_equality` does not send every variable to the smallest ID of its
class. -/
theorem width_equality_not_smallest :
    buildWidthEquality [(1, 2), (2, 3)] 3 = some 2
  ∧ buildWidthEquality [(2, 3), (1, 2)] 3 = some 2
  ∧ sameWidthClass [(1, 2), (2, 3)] 3 1
  ∧ (1 : Nat) < 2 := by
  refine ⟨by decide, by decide, ?_, by decide⟩
  exact Relation.EqvGen.symm _ _ (Relation.EqvGen.trans _ _ _
    (Relation.EqvGen.rel 1 2 (by decide)) (Relation.EqvGen.rel 2 3 (by decide)))

theorem widthEqualityStep_class (R : Nat → Nat → Prop)
    (we : Nat → Option Nat) (p : Nat × Nat) (hp : R p.1 p.2)
    (hwe : ∀ v w, we v = some w → Relation.EqvGen R v w) :
    ∀ v w, widthEqualityStep we p v = some w → Relation.EqvGen R v w := by
  intro v w h
  have hab : Relation.EqvGen R (if p.1 > p.2 then p.2 else p.1) (if p.1 > p.2 then p.1 else p.2) := by
    split
    · exact Relation.EqvGen.symm _ _ (Relation.EqvGen.rel _ _ hp)
    · exact Relation.EqvGen.rel _ _ hp
  unfold widthEqualityStep at h
  rcases hb : we (if p.1 > p.2 then p.1 else p.2) with _ | wb <;>
    simp only [hb, updateFn] at h
  · by_cases hv : v = (if p.1 > p.2 then p.1 else p.2)
    · rw [if_pos hv] at h
      cases h
      rw [hv]
      exact Relation.EqvGen.symm _ _ hab
    · rw [if_neg hv] at h
      exact hwe v w h
  · by_cases hv : v = (if p.1 > p.2 then p.1 else p.2)
    · rw [if_pos hv] at h
      cases h
      rw [hv]
      exact Relation.EqvGen.symm _ _ hab
    · rw [if_neg hv] at h
      by_cases hv2 : v = (if p.1 > p.2 then p.2 else p.1)
      · rw [if_pos hv2] at h
        cases h
        rw [hv2]
        exact Relation.EqvGen.trans _ _ _ hab (hwe _ _ hb)
      · rw [if_neg hv2] at h
        exact hwe v w h

theorem buildWidthEquality_class_aux (R : Nat → Nat → Prop) :
    ∀ (ps : List (Nat × Nat)) (we0 : Nat → Option Nat),
      (∀ p ∈ ps, R p.1 p.2) →
      (∀ v w, we0 v = some w → Relation.EqvGen R v w) →
      ∀ v w, ps.foldl widthEqualityStep we0 v = some w → Relation.EqvGen R v w := by
  intro ps
  induction ps with
  | nil =>
    intro we0 _ hwe v w h
    exact hwe v w h
  | cons p ps ih =>
    intro we0 hps hwe v w h
    exact ih (widthEqualityStep we0 p)
      (fun q hq => hps q (List.mem_cons_of_mem p hq))
      (widthEqualityStep_class R we0 p (hps p (List.mem_cons_self p ps)) hwe)
      v w h

theorem widthEqualChain_class (R : Nat → Nat → Prop) (we : Nat → Option Nat)
    (hwe : ∀ v w, we v = some w → Relation.EqvGen R v w) :
    ∀ fuel v1 v2, widthEqualChain we fuel v1 v2 = true → Relation.EqvGen R v2 v1 := by
  intro fuel
  induction fuel with
  | zero => intro v1 v2 h; cases h
  | succ fuel ih =>
    intro v1 v2 h
    unfold widthEqualChain at h
    rcases hb : we v2 with _ | v2' <;> simp only [hb] at h
    · exact Bool.noConfusion h
    · by_cases he : v1 = v2'
      · rw [he]
        exact hwe _ _ hb
      · rw [if_neg he] at h
        exact Relation.EqvGen.trans _ _ _ (hwe _ _ hb) (ih v1 v2' h)

/-- C6 amended: for every order of processing the width-equality pairs,
`width_equality` sends each variable it contains to a variable of the same
width-equality class (not necessarily the smallest of the class, as the
counterexample shows), and `width_equal_tyvars(a, b) = true` implies that
`a` and `b` are in the same class (the converse direction can fail). -/
theorem width_equality_class_sound (pairs : List (Nat × Nat)) :
    (∀ v w, buildWidthEquality pairs v = some w → sameWidthClass pairs v w)
  ∧ (∀ fuel a b, width_equal_tyvars (buildWidthEquality pairs) fuel a b = true →
      sameWidthClass pairs a b) := by
  have hbase : ∀ v w, buildWidthEquality pairs v = some w → sameWidthClass pairs v w :=
    buildWidthEquality_class_aux _ pairs (fun _ => none) (fun p hp => hp)
      (fun v w h => by cases h)
  refine ⟨hbase, ?_⟩
  intro fuel a b h
  unfold width_equal_tyvars at h
  have hc := widthEqualChain_class _ (buildWidthEquality pairs) hbase fuel _ _ h
  by_cases hab : a > b
  · simp only [if_pos hab] at hc
    exact hc
  · simp only [if_neg hab] at hc
    exact Relation.EqvGen.symm _ _ hc

/-- Witness for C6: with the single pair (1,2), variable 2 is mapped to 1
and the soundness theorem yields that 1 and 2 share a width-equality
class. -/
theorem width_equality_class_sound_witness :
    sameWidthClass [(1, 2)] 2 1 :=
  (width_equality_class_sound [(1, 2)]).1 2 1 rfl

/-- Bits of an entry of a partially built type vector; unassigned slots
(Python `None`) contribute 0, matching the fact that in the source `None`
compares below every other value, so it never dominates a maximum. -/
def bitsO : Option Ty → Nat
  | some t => t.bits
  | none => 0

/-- The immutable model produced by `get_type_model`, indexed by dense type
variable IDs: per-variable constraint class, optional pinned type, minimum
width (`min_width.get(vid, 0)` is modelled as a total map with default 0),
lower bounds, and the width-equality chain map.  `default_id` plays no role
in enumeration and is omitted. -/
structure AbstractTypeModel where
  constraint : List ConClass
  specific : Nat → Option Ty
  min_width : Nat → Nat
  lower_bounds : Nat → List Nat
  width_equality : Nat → Option Nat

/-- Number of type variables (`len(constraint)`). -/
def AbstractTypeModel.tyvars (m : AbstractTypeModel) : Nat :=
  m.constraint.length

/-- Float candidate types (`AbstractTypeModel.float_tys`). -/
def float_tys : List Ty := [Ty.half, Ty.single, Ty.double]

/-- The floor of `AbstractTypeModel.floor`: the maximum of the lower-bound
entries of the vector and the recorded minimum width.  Modelled from the
spec: the source takes `max` over `Type` values using the type ordering
from the missing `language.py` and the spec (section 4.3) reads this bound
as `max(min_width[i], max over lower bounds of bits(v[j]))`, so the floor
is embedded numerically through `bits`. -/
def AbstractTypeModel.floor (m : AbstractTypeModel) (vid : Nat)
    (vector : List (Option Ty)) : Nat :=
  let f := (m.lower_bounds vid).foldl
    (fun acc j => max acc (bitsO (vector.getD j none))) 0
  max f (m.min_width vid)

/-- The recursive enumeration `AbstractTypeModel._enum_vectors`, with the
generator turned into a list.  A pinned variable is validated against its
floor and width-equality partner; an unpinned variable iterates over the
candidate types of its constraint class, filtered by width equality.  The
`PTR` constraint class hits `assert False` in the source and is modelled
as producing nothing.  The recursion of the source terminates because
`vid` increases towards `tyvars`; here the count of remaining variables is
passed as the structurally decreasing argument `gas`, and the `gas = 0`
fallback is unreachable whenever `tyvars ≤ gas + vid` holds, which the
wrapper `enum_vectors` establishes. -/
def AbstractTypeModel.enum_aux (m : AbstractTypeModel) (int_limit : Nat) :
    Nat → Nat → List (Option Ty) → List (List (Option Ty))
  | gas, vid, vector =>
    if m.tyvars ≤ vid then [vector]
    else
      match gas with
      | 0 => []
      | gas + 1 =>
        match m.specific vid with
        | some _ =>
          if bitsO (vector.getD vid none) ≤ m.floor vid vector then []
          else
            match m.width_equality vid with
            | some j =>
              if bitsO (vector.getD vid none) ≠ bitsO (vector.getD j none) then []
              else m.enum_aux int_limit gas (vid + 1) vector
            | none => m.enum_aux int_limit gas (vid + 1) vector
        | none =>
          let tys : List Ty :=
            match m.constraint.getD vid .FIRST_CLASS with
            | .FIRST_CLASS => int_types 1 int_limit ++ [Ty.ptr] ++ float_tys
            | .NUMBER => int_types 1 int_limit ++ float_tys
            | .FLOAT => float_tys.filter (fun t => m.floor vid vector < t.bits)
            | .INT_PTR => int_types 1 int_limit ++ [Ty.ptr]
            | .INT => int_types (m.floor vid vector + 1) int_limit
            | .BOOL => [Ty.int 1]
            | .PTR => []
          let tys2 : List Ty :=
            match m.width_equality vid with
            | some j => tys.filter (fun t => t.bits = bitsO (vector.getD j none))
            | none => tys
          tys2.flatMap (fun t => m.enum_aux int_limit gas (vid + 1) (vector.set vid t))

/-- Enumeration from variable `vid` (`_enum_vectors(vid, vector)`). -/
def AbstractTypeModel.enum_vectors (m : AbstractTypeModel) (int_limit : Nat)
    (vid : Nat) (vector : List (Option Ty)) : List (List (Option Ty)) :=
  m.enum_aux int_limit (m.tyvars - vid) vid vector

/-- `AbstractTypeModel.type_vectors`: start from a vector that is `None`
except at the pinned variables, and enumerate from variable 0. -/
def AbstractTypeModel.type_vectors (m : AbstractTypeModel) (int_limit : Nat) :
    List (List (Option Ty)) :=
  m.enum_vectors int_limit 0 ((List.range m.tyvars).map (fun vid => m.specific vid))

/-- The width-monotonicity property claimed for an enumerated vector at
variable `i`: strictly more bits than every lower bound and than the
recorded minimum width. -/
def widthMonotone (m : AbstractTypeModel) (v : List (Option Ty)) (i : Nat) : Prop :=
  (∀ j ∈ m.lower_bounds i, bitsO (v.getD j none) < bitsO (v.getD i none))
  ∧ m.min_width i < bitsO (v.getD i none)

/-- A model with an INT variable 0 below a NUMBER variable 1. -/
def cexModel : AbstractTypeModel where
  constraint := [ConClass.INT, ConClass.NUMBER]
  specific := fun _ => none
  min_width := fun _ => 0
  lower_bounds := fun vid => if vid = 1 then [0] else []
  width_equality := fun _ => none

/-- C2 counterexample: the enumeration branch for a NUMBER-constrained
variable ignores the floor entirely, so `cexModel` (variable 1 has
constraint NUMBER and lower bound 0) enumerates the vector (i4, i4),
violating `bits(v[1]) > bits(v[0])`. -/
theorem width_monotonicity_cex :
    [some (Ty.int 4), some (Ty.int 4)] ∈ cexModel.type_vectors 5
  ∧ 0 ∈ cexModel.lower_bounds 1
  ∧ ¬ widthMonotone cexModel [some (Ty.int 4), some (Ty.int 4)] 1 := by
  refine ⟨by decide, by decide, ?_⟩
  intro ⟨h1, _⟩
  exact absurd (h1 0 (by decide)) (by decide)

/-- Type variables for which the enumeration does consult the floor: the
pinned ones and the unpinned ones with constraint class INT or FLOAT.  The
branches for FIRST_CLASS, NUMBER, INT_PTR and BOOL ignore the floor. -/
def eligible (m : AbstractTypeModel) (i : Nat) : Prop :=
  (m.specific i).isSome = true
  ∨ m.constraint.getD i .FIRST_CLASS = .INT
  ∨ m.constraint.getD i .FIRST_CLASS = .FLOAT

theorem foldl_max_le_acc (g : Nat → Nat) :
    ∀ (l : List Nat) (acc : Nat), acc ≤ l.foldl (fun a j => max a (g j)) acc := by
  intro l
  induction l with
  | nil => intro acc; exact Nat.le_refl acc
  | cons x l ih =>
    intro acc
    exact le_trans (le_max_left acc (g x)) (ih (max acc (g x)))

theorem le_foldl_max (g : Nat → Nat) :
    ∀ (l : List Nat) (acc : Nat) (j : Nat), j ∈ l →
      g j ≤ l.foldl (fun a j => max a (g j)) acc := by
  intro l
  induction l with
  | nil => intro acc j hj; cases hj
  | cons x l ih =>
    intro acc j hj
    rcases List.mem_cons.1 hj with rfl | hj
    · exact le_trans (le_max_right acc (g j)) (foldl_max_le_acc g l _)
    · exact ih _ j hj

theorem floor_ge_min_width (m : AbstractTypeModel) (vid : Nat)
    (vector : List (Option Ty)) : m.min_width vid ≤ m.floor vid vector :=
  le_max_right _ _

theorem floor_ge_lower_bound (m : AbstractTypeModel) (vid : Nat)
    (vector : List (Option Ty)) (j : Nat) (hj : j ∈ m.lower_bounds vid) :
    bitsO (vector.getD j none) ≤ m.floor vid vector :=
  le_trans (le_foldl_max (fun j => bitsO (vector.getD j none)) _ 0 j hj)
    (le_max_left _ _)

theorem getD_set_ne {α : Type} (l : List α) (i k : Nat) (a d : α) (h : i ≠ k) :
    (l.set i a).getD k d = l.getD k d := by
  simp [List.getD_eq_getElem?_getD, List.getElem?_set_ne h]

theorem getD_set_self {α : Type} (l : List α) (i : Nat) (a d : α) (h : i < l.length) :
    (l.set i a).getD i d = a := by
  simp [List.getD_eq_getElem?_getD, List.getElem?_set_self, h]

theorem mem_intWidths (a b w : Nat) : w ∈ intWidths a b ↔ a ≤ w ∧ w < b := by
  have h := count_intWidths a b w
  constructor
  · intro hm
    have hpos : 0 < (intWidths a b).count w := List.count_pos_iff.2 hm
    rw [h] at hpos
    split_ifs at hpos <;> omega
  · intro hab
    refine List.count_pos_iff.1 ?_
    rw [h]
    split_ifs <;> omega

theorem mem_int_types (a b : Nat) (t : Ty) (ht : t ∈ int_types a b) :
    ∃ w, t = Ty.int w ∧ a ≤ w ∧ w < b := by
  simp only [int_types, List.mem_map] at ht
  obtain ⟨w, hw, rfl⟩ := ht
  exact ⟨w, rfl, (mem_intWidths a b w).1 hw⟩

theorem enum_aux_spec (m : AbstractTypeModel) (int_limit : Nat)
    (htopo : ∀ i j, j ∈ m.lower_bounds i → j < i) :
    ∀ (gas vid : Nat) (vector : List (Option Ty)),
      vector.length = m.tyvars →
      ∀ v ∈ m.enum_aux int_limit gas vid vector,
        (∀ k, k < vid → v.getD k none = vector.getD k none)
        ∧ (∀ i, vid ≤ i → i < m.tyvars → eligible m i → widthMonotone m v i) := by
  intro gas
  induction gas with
  | zero =>
    intro vid vector hlen v hv
    unfold AbstractTypeModel.enum_aux at hv
    by_cases hend : m.tyvars ≤ vid
    · rw [if_pos hend] at hv
      rcases List.mem_singleton.1 hv with rfl
      exact ⟨fun k _ => rfl, fun i h1 h2 _ => absurd h2 (by omega)⟩
    · rw [if_neg hend] at hv
      cases hv
  | succ gas ih =>
    intro vid vector hlen v hv
    unfold AbstractTypeModel.enum_aux at hv
    by_cases hend : m.tyvars ≤ vid
    · rw [if_pos hend] at hv
      rcases List.mem_singleton.1 hv with rfl
      exact ⟨fun k _ => rfl, fun i h1 h2 _ => absurd h2 (by omega)⟩
    · rw [if_neg hend] at hv
      rcases hspec : m.specific vid with _ | sty
      · -- unpinned variable: iterate over candidate types
        simp only [hspec] at hv
        obtain ⟨t, ht, hv2⟩ := List.mem_flatMap.1 hv
        have hrec := ih (vid + 1) (vector.set vid t) (by simp [hlen]) v hv2
        have hagree : ∀ k, k < vid → v.getD k none = vector.getD k none := by
          intro k hk
          rw [hrec.1 k (by omega), getD_set_ne _ _ _ _ _ (by omega)]
        have hvid : v.getD vid none = some t := by
          rw [hrec.1 vid (by omega), getD_set_self]
          omega
        refine ⟨hagree, ?_⟩
        intro i h1 h2 helig
        rcases Nat.eq_or_lt_of_le h1 with rfl | h1s
        · -- the freshly assigned variable
          have hbits : m.floor vid vector < t.bits := by
            have ht2 : t ∈ (match m.constraint.getD vid ConClass.FIRST_CLASS with
              | ConClass.FIRST_CLASS => int_types 1 int_limit ++ [Ty.ptr] ++ float_tys
              | ConClass.NUMBER => int_types 1 int_limit ++ float_tys
              | ConClass.FLOAT => float_tys.filter (fun t => m.floor vid vector < t.bits)
              | ConClass.INT_PTR => int_types 1 int_limit ++ [Ty.ptr]
              | ConClass.INT => int_types (m.floor vid vector + 1) int_limit
              | ConClass.BOOL => [Ty.int 1]
              | ConClass.PTR => []) := by
              rcases hwe : m.width_equality vid with _ | j <;> simp only [hwe] at ht
              · exact ht
              · exact (List.mem_filter.1 ht).1
            rcases helig with hs | hcon | hcon
            · rw [hspec] at hs
              cases hs
            · rw [hcon] at ht2
              obtain ⟨w, rfl, hw1, _⟩ := mem_int_types _ _ t ht2
              simpa [Ty.bits] using hw1
            · rw [hcon] at ht2
              exact of_decide_eq_true (List.mem_filter.1 ht2).2
          constructor
          · intro j hj
            have hji : j < vid := htopo vid j hj
            rw [hvid, hagree j hji]
            exact lt_of_le_of_lt (floor_ge_lower_bound m vid vector j hj) hbits
          · rw [hvid]
            exact lt_of_le_of_lt (floor_ge_min_width m vid vector) hbits
        · exact hrec.2 i (by omega) h2 helig
      · -- pinned variable: validate and continue
        simp only [hspec] at hv
        by_cases hfl : bitsO (vector.getD vid none) ≤ m.floor vid vector
        · rw [if_pos hfl] at hv
          cases hv
        · rw [if_neg hfl] at hv
          have hv2 : v ∈ m.enum_aux int_limit gas (vid + 1) vector := by
            rcases hwe : m.width_equality vid with _ | j <;> simp only [hwe] at hv
            · exact hv
            · by_cases hne : bitsO (vector.getD vid none) ≠ bitsO (vector.getD j none)
              · rw [if_pos hne] at hv
                cases hv
              · rw [if_neg hne] at hv
                exact hv
          have hrec := ih (vid + 1) vector hlen v hv2
          refine ⟨fun k hk => hrec.1 k (by omega), ?_⟩
          intro i h1 h2 helig
          rcases Nat.eq_or_lt_of_le h1 with rfl | h1s
          · have hvid : v.getD vid none = vector.getD vid none := hrec.1 vid (by omega)
            constructor
            · intro j hj
              have hji : j < vid := htopo vid j hj
              rw [hvid, hrec.1 j (by omega)]
              exact lt_of_le_of_lt (floor_ge_lower_bound m vid vector j hj) (by omega)
            · rw [hvid]
              exact lt_of_le_of_lt (floor_ge_min_width m vid vector) (by omega)
          · exact hrec.2 i (by omega) h2 helig

/-- C2 amended: for every topologically ordered model and every enumerated
vector, width monotonicity (strictly more bits than each lower bound and
than the recorded minimum width) holds for every pinned variable and every
unpinned variable whose constraint class is INT or FLOAT.  The
counterexample shows it fails for the other constraint classes, whose
enumeration branches ignore the floor. -/
theorem width_monotonicity (m : AbstractTypeModel) (int_limit : Nat)
    (htopo : ∀ i j, j ∈ m.lower_bounds i → j < i)
    (v : List (Option Ty)) (hv : v ∈ m.type_vectors int_limit)
    (i : Nat) (hi : i < m.tyvars) (helig : eligible m i) :
    widthMonotone m v i := by
  simp only [AbstractTypeModel.type_vectors, AbstractTypeModel.enum_vectors] at hv
  have := enum_aux_spec m int_limit htopo (m.tyvars - 0) 0
    ((List.range m.tyvars).map (fun vid => m.specific vid)) (by simp) v hv
  exact this.2 i (Nat.zero_le i) hi helig

/-- Witness for C2 at a one-variable INT model: the only constraints are
vacuous lower bounds, and the first enumerated vector [i1] satisfies width
monotonicity. -/
def wModel : AbstractTypeModel where
  constraint := [ConClass.INT]
  specific := fun _ => none
  min_width := fun _ => 0
  lower_bounds := fun _ => []
  width_equality := fun _ => none

theorem width_monotonicity_witness :
    widthMonotone wModel [some (Ty.int 1)] 0 :=
  width_monotonicity wModel 3 (fun i j hj => by simp [wModel] at hj)
    [some (Ty.int 1)] (by decide) 0 (by decide)
    (Or.inr (Or.inl (by decide)))

/-- Z3 sorts used by the translator (`_ty_sort`): bit-vectors and the
three floating-point sorts.  `X86FP80Type` has no entry in the source map
(a lookup there raises `KeyError`); it gets a dedicated constructor that no
translation produces. -/
inductive Z3Sort where
  | bv (w : Nat)
  | fp16
  | fp32
  | fp64
  | fp80
deriving DecidableEq, Repr

/-- `_ty_sort`: `IntType(w)` to `BV(w)`, pointers to `BV(64)`, floats to
their FP sorts. -/
def ty_sort : Ty → Z3Sort
  | .int w => .bv w
  | .ptr => .bv 64
  | .half => .fp16
  | .single => .fp32
  | .double => .fp64
  | .x86fp80 => .fp80

/-- Deep embedding of the Z3 expressions the translator builds.  Python
ints that z3 coerces to bit-vector literals are materialized as `bvVal`
with the width of the other operand, exactly where the source relies on
the coercion. -/
inductive Z3Expr where
  | const (name : String) (s : Z3Sort)
  | boolB (name : String)
  | bvVal (v : Int) (w : Nat)
  | fpVal (v : Int) (s : Z3Sort)
  | add (x y : Z3Expr)
  | sub (x y : Z3Expr)
  | mul (x y : Z3Expr)
  | sdiv (x y : Z3Expr)
  | udiv (x y : Z3Expr)
  | srem (x y : Z3Expr)
  | urem (x y : Z3Expr)
  | shl (x y : Z3Expr)
  | ashr (x y : Z3Expr)
  | lshr (x y : Z3Expr)
  | band (x y : Z3Expr)
  | bor (x y : Z3Expr)
  | bxor (x y : Z3Expr)
  | bnot (x : Z3Expr)
  | neg (x : Z3Expr)
  | eq (x y : Z3Expr)
  | ne (x y : Z3Expr)
  | ult (x y : Z3Expr)
  | ule (x y : Z3Expr)
  | ugt (x y : Z3Expr)
  | uge (x y : Z3Expr)
  | slt (x y : Z3Expr)
  | sle (x y : Z3Expr)
  | sgt (x y : Z3Expr)
  | sge (x y : Z3Expr)
  | signExt (n : Nat) (x : Z3Expr)
  | zeroExt (n : Nat) (x : Z3Expr)
  | extract (hi lo : Nat) (x : Z3Expr)
  | ite (c x y : Z3Expr)
  | not (x : Z3Expr)
  | andN (xs : List Z3Expr)
  | orN (xs : List Z3Expr)
  | implies (x y : Z3Expr)
  | boolVal (b : Bool)
  | fadd (x y : Z3Expr)
  | fsub (x y : Z3Expr)
  | fmul (x y : Z3Expr)
  | fdiv (x y : Z3Expr)
  | frem (x y : Z3Expr)
  | fpIsNaN (x : Z3Expr)
  | fpIsInfinite (x : Z3Expr)
  | boolToBV (x : Z3Expr)
  | ctlz (x : Z3Expr) (w : Nat)
  | cttz (x : Z3Expr) (w : Nat)
  | bvLog2 (x : Z3Expr) (w : Nat)
  | numSignBits (x : Z3Expr) (w : Nat)
  | forallQ (qs : List Z3Expr) (body : Z3Expr)

/-- Bit width reported by z3's `.size()` on the embedded expressions:
binary bit-vector operations take the width of their left operand,
extensions add to it, `Extract(hi, lo, x)` has width `hi - lo + 1`,
`bool_to_BitVec` produces one bit.  Non-bit-vector expressions report 0
(the source never calls `.size()` on them). -/
def Z3Expr.size : Z3Expr → Nat
  | .const _ (.bv w) => w
  | .const _ _ => 0
  | .boolB _ => 0
  | .bvVal _ w => w
  | .fpVal _ _ => 0
  | .add x _ => x.size
  | .sub x _ => x.size
  | .mul x _ => x.size
  | .sdiv x _ => x.size
  | .udiv x _ => x.size
  | .srem x _ => x.size
  | .urem x _ => x.size
  | .shl x _ => x.size
  | .ashr x _ => x.size
  | .lshr x _ => x.size
  | .band x _ => x.size
  | .bor x _ => x.size
  | .bxor x _ => x.size
  | .bnot x => x.size
  | .neg x => x.size
  | .eq _ _ => 0
  | .ne _ _ => 0
  | .ult _ _ => 0
  | .ule _ _ => 0
  | .ugt _ _ => 0
  | .uge _ _ => 0
  | .slt _ _ => 0
  | .sle _ _ => 0
  | .sgt _ _ => 0
  | .sge _ _ => 0
  | .signExt n x => n + x.size
  | .zeroExt n x => n + x.size
  | .extract hi lo _ => hi - lo + 1
  | .ite _ x _ => x.size
  | .not _ => 0
  | .andN _ => 0
  | .orN _ => 0
  | .implies _ _ => 0
  | .boolVal _ => 0
  | .fadd _ _ => 0
  | .fsub _ _ => 0
  | .fmul _ _ => 0
  | .fdiv _ _ => 0
  | .frem _ _ => 0
  | .fpIsNaN _ => 0
  | .fpIsInfinite _ => 0
  | .boolToBV _ => 1
  | .ctlz _ w => w
  | .cttz _ w => w
  | .bvLog2 _ w => w
  | .numSignBits _ w => w
  | .forallQ _ _ => 0

/-- Comparison opcodes shared by `IcmpInst` and `Comparison`. -/
inductive CmpOp where
  | eq
  | ne
  | ugt
  | uge
  | ult
  | ule
  | sgt
  | sge
  | slt
  | sle
deriving DecidableEq, Repr

/-- The comparison dictionary of `IcmpInst` and `Comparison`. -/
def cmpExpr : CmpOp → Z3Expr → Z3Expr → Z3Expr
  | .eq, x, y => .eq x y
  | .ne, x, y => .ne x y
  | .ugt, x, y => .ugt x y
  | .uge, x, y => .uge x y
  | .ult, x, y => .ult x y
  | .ule, x, y => .ule x y
  | .sgt, x, y => .sgt x y
  | .sge, x, y => .sge x y
  | .slt, x, y => .slt x y
  | .sle, x, y => .sle x y

/-- Flags of the overflow-checked integer instructions. -/
inductive ArithFlag where
  | nsw
  | nuw
deriving DecidableEq, Repr

/-- Flag of the exact division and shift instructions. -/
inductive ExactFlag where
  | exact1
deriving DecidableEq, Repr

/-- Fast-math flags of the floating-point instructions. -/
inductive FastMathFlag where
  | nnan
  | ninf
deriving DecidableEq, Repr

set_option maxHeartbeats 1600000 in
/-- IR terms, the variants of `language.py` that the translator handles,
restricted to the flag sets each instruction admits. -/
inductive Term where
  | Input (name : String)
  | Literal (val : Int)
  | FLiteral (val : Int)
  | UndefValue
  | AddInst (x y : Term) (flags : List ArithFlag)
  | SubInst (x y : Term) (flags : List ArithFlag)
  | MulInst (x y : Term) (flags : List ArithFlag)
  | SDivInst (x y : Term) (flags : List ExactFlag)
  | UDivInst (x y : Term) (flags : List ExactFlag)
  | SRemInst (x y : Term)
  | URemInst (x y : Term)
  | ShlInst (x y : Term) (flags : List ArithFlag)
  | AShrInst (x y : Term) (flags : List ExactFlag)
  | LShrInst (x y : Term) (flags : List ExactFlag)
  | AndInst (x y : Term)
  | OrInst (x y : Term)
  | XorInst (x y : Term)
  | FAddInst (x y : Term) (flags : List FastMathFlag)
  | FSubInst (x y : Term) (flags : List FastMathFlag)
  | FMulInst (x y : Term) (flags : List FastMathFlag)
  | FDivInst (x y : Term) (flags : List FastMathFlag)
  | FRemInst (x y : Term) (flags : List FastMathFlag)
  | SExtInst (arg : Term)
  | ZExtInst (arg : Term)
  | TruncInst (arg : Term)
  | ZExtOrTruncInst (arg : Term)
  | IcmpInst (pred : CmpOp) (x y : Term)
  | SelectInst (sel arg1 arg2 : Term)
  | AddCnxp (x y : Term)
  | SubCnxp (x y : Term)
  | MulCnxp (x y : Term)
  | XorCnxp (x y : Term)
  | NotCnxp (x : Term)
  | NegCnxp (x : Term)
  | NotPred (p : Term)
  | Comparison (op : CmpOp) (x y : Term)
  | IntMinPred (a : Term)
  | Power2Pred (a : Term)
  | Power2OrZPred (a : Term)
  | ShiftedMaskPred (a : Term)
  | MaskZeroPred (a b : Term)
  | NSWAddPred (a b : Term)
  | NUWAddPred (a b : Term)
  | NSWSubPred (a b : Term)
  | NUWSubPred (a b : Term)
  | NSWMulPred (a b : Term)
  | NUWMulPred (a b : Term)
  | NUWShlPred (a b : Term)
  | OneUsePred (a : Term)
deriving DecidableEq

/-- `is_const` on IR terms: a `Constant` variant (literals and constant
expressions) or an `Input` whose first name character is C.  The source
indexes `term.name[0]`, which raises on an empty name; the empty case is
modelled as false. -/
def is_const : Term → Bool
  | .Literal _ => true
  | .FLiteral _ => true
  | .AddCnxp _ _ => true
  | .SubCnxp _ _ => true
  | .MulCnxp _ _ => true
  | .XorCnxp _ _ => true
  | .NotCnxp _ => true
  | .NegCnxp _ => true
  | .Input name =>
    match name.data with
    | c :: _ => c == 'C'
    | [] => false
  | _ => false

/-- `is_const` applied to an already-translated Z3 expression, as
`_mk_must_analysis` does (`is_const(x)` where `x = self.eval(...)`): a Z3
expression is never an instance of the IR classes `Constant` or `Input`,
so both `isinstance` tests are false for every argument. -/
def is_constZ3 (_ : Z3Expr) : Bool := false

/-- Mutable translator state (`SMTTranslator.__init__`): fresh-name
counter, definedness conditions, non-poison conditions, quantified
variables. -/
structure SMTState where
  fresh : Nat
  defs : List Z3Expr
  nops : List Z3Expr
  qvars : List Z3Expr

/-- A freshly initialized translator. -/
def initState : SMTState := ⟨0, [], [], []⟩

/-- `add_defs` appends definedness conditions. -/
def SMTState.addDefs (s : SMTState) (ds : List Z3Expr) : SMTState :=
  { s with defs := s.defs ++ ds }

/-- `add_nops` appends non-poison conditions. -/
def SMTState.addNops (s : SMTState) (ns : List Z3Expr) : SMTState :=
  { s with nops := s.nops ++ ns }

/-- `add_qvar` appends quantified variables. -/
def SMTState.addQvar (s : SMTState) (qs : List Z3Expr) : SMTState :=
  { s with qvars := s.qvars ++ qs }

/-- A type model for translation: the mapping `self.types[term]` from
terms to their concrete types. -/
def TypeModel : Type := Term → Ty

/-- `SMTTranslator.bits`: width of the type assigned to a term; integers
report their width, pointers 64.  Other types hit `assert False` in the
source; they report 0 here. -/
def termBits (tm : TypeModel) (t : Term) : Nat :=
  match tm t with
  | .int w => w
  | .ptr => 64
  | _ => 0

/-- Non-poison conditions of `AddInst` flags: sign- and zero-extension by
one bit commutes with addition. -/
def addPoison : ArithFlag → Z3Expr → Z3Expr → Z3Expr
  | .nsw, x, y => .eq (.add (.signExt 1 x) (.signExt 1 y)) (.signExt 1 (.add x y))
  | .nuw, x, y => .eq (.add (.zeroExt 1 x) (.zeroExt 1 y)) (.zeroExt 1 (.add x y))

/-- Non-poison conditions of `SubInst` flags. -/
def subPoison : ArithFlag → Z3Expr → Z3Expr → Z3Expr
  | .nsw, x, y => .eq (.sub (.signExt 1 x) (.signExt 1 y)) (.signExt 1 (.sub x y))
  | .nuw, x, y => .eq (.sub (.zeroExt 1 x) (.zeroExt 1 y)) (.zeroExt 1 (.sub x y))

/-- Non-poison conditions of `MulInst` flags: extension by the full width
commutes with multiplication. -/
def mulPoison : ArithFlag → Z3Expr → Z3Expr → Z3Expr
  | .nsw, x, y =>
    .eq (.mul (.signExt x.size x) (.signExt x.size y)) (.signExt x.size (.mul x y))
  | .nuw, x, y =>
    .eq (.mul (.zeroExt x.size x) (.zeroExt x.size y)) (.zeroExt x.size (.mul x y))

/-- Non-poison conditions of `ShlInst` flags: shifting back recovers the
operand, arithmetically for nsw and logically for nuw. -/
def shlPoison : ArithFlag → Z3Expr → Z3Expr → Z3Expr
  | .nsw, x, y => .eq (.ashr (.shl x y) y) x
  | .nuw, x, y => .eq (.lshr (.shl x y) y) x

/-- Exactness condition of `SDivInst`. -/
def sdivPoison : ExactFlag → Z3Expr → Z3Expr → Z3Expr
  | .exact1, x, y => .eq (.mul (.sdiv x y) y) x

/-- Exactness condition of `UDivInst`. -/
def udivPoison : ExactFlag → Z3Expr → Z3Expr → Z3Expr
  | .exact1, x, y => .eq (.mul (.udiv x y) y) x

/-- Exactness condition of `AShrInst`. -/
def ashrPoison : ExactFlag → Z3Expr → Z3Expr → Z3Expr
  | .exact1, x, y => .eq (.shl (.ashr x y) y) x

/-- Exactness condition of `LShrInst`. -/
def lshrPoison : ExactFlag → Z3Expr → Z3Expr → Z3Expr
  | .exact1, x, y => .eq (.shl (.lshr x y) y) x

/-- Definedness conditions of unsigned division and remainder: the
divisor is nonzero. -/
def divDefined (y : Z3Expr) : List Z3Expr :=
  [.ne y (.bvVal 0 y.size)]

/-- Definedness conditions of signed division and remainder: the divisor
is nonzero and the INT_MIN / -1 overflow case is excluded. -/
def sdivDefined (x y : Z3Expr) : List Z3Expr :=
  [.ne y (.bvVal 0 y.size),
   .orN [.ne x (.bvVal (2 ^ (x.size - 1) : Int) x.size), .ne y (.bvVal (-1) y.size)]]

/-- Definedness condition of the shift instructions: the shift amount is
unsigned-below the bit width. -/
def shiftDefined (y : Z3Expr) : List Z3Expr :=
  [.ult y (.bvVal (y.size : Int) y.size)]

/-- Definedness conditions that the nnan flag adds to a floating-point
binary operation. -/
def fpNaNDefs (op : Z3Expr → Z3Expr → Z3Expr) (x y : Z3Expr) : List Z3Expr :=
  [.not (.fpIsNaN x), .not (.fpIsNaN y), .not (.fpIsNaN (op x y))]

/-- Definedness conditions that the ninf flag adds to a floating-point
binary operation. -/
def fpInfDefs (op : Z3Expr → Z3Expr → Z3Expr) (x y : Z3Expr) : List Z3Expr :=
  [.not (.fpIsInfinite x), .not (.fpIsInfinite y), .not (.fpIsInfinite (op x y))]

/-- Power2Pred body: nonzero and a power of two. -/
def power2Formula (x : Z3Expr) : Z3Expr :=
  .andN [.ne x (.bvVal 0 x.size),
    .eq (.band x (.sub x (.bvVal 1 x.size))) (.bvVal 0 x.size)]

/-- Power2OrZPred body: zero or a power of two. -/
def power2OrZFormula (x : Z3Expr) : Z3Expr :=
  .eq (.band x (.sub x (.bvVal 1 x.size))) (.bvVal 0 x.size)

/-- MaskZeroPred body. -/
def maskZeroFormula (x y : Z3Expr) : Z3Expr :=
  .eq (.band x y) (.bvVal 0 x.size)

/-- NSWAddPred body. -/
def nswAddFormula (x y : Z3Expr) : Z3Expr :=
  .eq (.add (.signExt 1 x) (.signExt 1 y)) (.signExt 1 (.add x y))

/-- NUWAddPred body. -/
def nuwAddFormula (x y : Z3Expr) : Z3Expr :=
  .eq (.add (.zeroExt 1 x) (.zeroExt 1 y)) (.zeroExt 1 (.add x y))

/-- NSWSubPred body. -/
def nswSubFormula (x y : Z3Expr) : Z3Expr :=
  .eq (.sub (.signExt 1 x) (.signExt 1 y)) (.signExt 1 (.sub x y))

/-- NUWSubPred body. -/
def nuwSubFormula (x y : Z3Expr) : Z3Expr :=
  .eq (.sub (.zeroExt 1 x) (.zeroExt 1 y)) (.zeroExt 1 (.sub x y))

/-- The fresh boolean `ana_<n>` allocated by `fresh_bool`: the counter is
bumped first and its new value is used in the name. -/
def freshBool (s : SMTState) : Z3Expr × SMTState :=
  (.boolB ("ana_" ++ toString (s.fresh + 1)), { s with fresh := s.fresh + 1 })

/-- `SMTTranslator.eval`, dispatching over the term variants exactly as
the visitor does.  Binary instructions evaluate left then right, append
their definedness conditions, then append one non-poison condition per
flag in flag order; constant expressions contribute neither. -/
def eval (tm : TypeModel) : Term → SMTState → Z3Expr × SMTState
  | .Input name, s => (.const name (ty_sort (tm (.Input name))), s)
  | .AddInst x y flags, s =>
    let (xv, s1) := eval tm x s
    let (yv, s2) := eval tm y s1
    (.add xv yv, flags.foldl (fun st f => st.addNops [addPoison f xv yv]) s2)
  | .SubInst x y flags, s =>
    let (xv, s1) := eval tm x s
    let (yv, s2) := eval tm y s1
    (.sub xv yv, flags.foldl (fun st f => st.addNops [subPoison f xv yv]) s2)
  | .MulInst x y flags, s =>
    let (xv, s1) := eval tm x s
    let (yv, s2) := eval tm y s1
    (.mul xv yv, flags.foldl (fun st f => st.addNops [mulPoison f xv yv]) s2)
  | .SDivInst x y flags, s =>
    let (xv, s1) := eval tm x s
    let (yv, s2) := eval tm y s1
    let s3 := s2.addDefs (sdivDefined xv yv)
    (.sdiv xv yv, flags.foldl (fun st f => st.addNops [sdivPoison f xv yv]) s3)
  | .UDivInst x y flags, s =>
    let (xv, s1) := eval tm x s
    let (yv, s2) := eval tm y s1
    let s3 := s2.addDefs (divDefined yv)
    (.udiv xv yv, flags.foldl (fun st f => st.addNops [udivPoison f xv yv]) s3)
  | .SRemInst x y, s =>
    let (xv, s1) := eval tm x s
    let (yv, s2) := eval tm y s1
    (.srem xv yv, s2.addDefs (sdivDefined xv yv))
  | .URemInst x y, s =>
    let (xv, s1) := eval tm x s
    let (yv, s2) := eval tm y s1
    (.urem xv yv, s2.addDefs (divDefined yv))
  | .ShlInst x y flags, s =>
    let (xv, s1) := eval tm x s
    let (yv, s2) := eval tm y s1
    let s3 := s2.addDefs (shiftDefined yv)
    (.shl xv yv, flags.foldl (fun st f => st.addNops [shlPoison f xv yv]) s3)
  | .AShrInst x y flags, s =>
    let (xv, s1) := eval tm x s
    let (yv, s2) := eval tm y s1
    let s3 := s2.addDefs (shiftDefined yv)
    (.ashr xv yv, flags.foldl (fun st f => st.addNops [ashrPoison f xv yv]) s3)
  | .LShrInst x y flags, s =>
    let (xv, s1) := eval tm x s
    let (yv, s2) := eval tm y s1
    let s3 := s2.addDefs (shiftDefined yv)
    (.lshr xv yv, flags.foldl (fun st f => st.addNops [lshrPoison f xv yv]) s3)
  | .AndInst x y, s =>
    let (xv, s1) := eval tm x s
    let (yv, s2) := eval tm y s1
    (.band xv yv, s2)
  | .OrInst x y, s =>
    let (xv, s1) := eval tm x s
    let (yv, s2) := eval tm y s1
    (.bor xv yv, s2)
  | .XorInst x y, s =>
    let (xv, s1) := eval tm x s
    let (yv, s2) := eval tm y s1
    (.bxor xv yv, s2)
  | .FAddInst x y flags, s =>
    let (xv, s1) := eval tm x s
    let (yv, s2) := eval tm y s1
    let s3 := if FastMathFlag.nnan ∈ flags then s2.addDefs (fpNaNDefs .fadd xv yv) else s2
    let s4 := if FastMathFlag.ninf ∈ flags then s3.addDefs (fpInfDefs .fadd xv yv) else s3
    (.fadd xv yv, s4)
  | .FSubInst x y flags, s =>
    let (xv, s1) := eval tm x s
    let (yv, s2) := eval tm y s1
    let s3 := if FastMathFlag.nnan ∈ flags then s2.addDefs (fpNaNDefs .fsub xv yv) else s2
    let s4 := if FastMathFlag.ninf ∈ flags then s3.addDefs (fpInfDefs .fsub xv yv) else s3
    (.fsub xv yv, s4)
  | .FMulInst x y flags, s =>
    let (xv, s1) := eval tm x s
    let (yv, s2) := eval tm y s1
    let s3 := if FastMathFlag.nnan ∈ flags then s2.addDefs (fpNaNDefs .fmul xv yv) else s2
    let s4 := if FastMathFlag.ninf ∈ flags then s3.addDefs (fpInfDefs .fmul xv yv) else s3
    (.fmul xv yv, s4)
  | .FDivInst x y flags, s =>
    let (xv, s1) := eval tm x s
    let (yv, s2) := eval tm y s1
    let s3 := if FastMathFlag.nnan ∈ flags then s2.addDefs (fpNaNDefs .fdiv xv yv) else s2
    let s4 := if FastMathFlag.ninf ∈ flags then s3.addDefs (fpInfDefs .fdiv xv yv) else s3
    (.fdiv xv yv, s4)
  | .FRemInst x y flags, s =>
    let (xv, s1) := eval tm x s
    let (yv, s2) := eval tm y s1
    let s3 := if FastMathFlag.nnan ∈ flags then s2.addDefs (fpNaNDefs .frem xv yv) else s2
    let s4 := if FastMathFlag.ninf ∈ flags then s3.addDefs (fpInfDefs .frem xv yv) else s3
    (.frem xv yv, s4)
  | .SExtInst a, s =>
    let (v, s1) := eval tm a s
    (.signExt (termBits tm (.SExtInst a) - termBits tm a) v, s1)
  | .ZExtInst a, s =>
    let (v, s1) := eval tm a s
    (.zeroExt (termBits tm (.ZExtInst a) - termBits tm a) v, s1)
  | .TruncInst a, s =>
    let (v, s1) := eval tm a s
    (.extract (termBits tm (.TruncInst a) - 1) 0 v, s1)
  | .ZExtOrTruncInst a, s =>
    let (v, s1) := eval tm a s
    let src := termBits tm a
    let tgt := termBits tm (.ZExtOrTruncInst a)
    if tgt = src then (v, s1)
    else if tgt > src then (.zeroExt (tgt - src) v, s1)
    else (.extract (tgt - 1) 0 v, s1)
  | .IcmpInst pred x y, s =>
    let (xv, s1) := eval tm x s
    let (yv, s2) := eval tm y s1
    (.boolToBV (cmpExpr pred xv yv), s2)
  | .SelectInst c a1 a2, s =>
    let (cv, s1) := eval tm c s
    let (xv, s2) := eval tm a1 s1
    let (yv, s3) := eval tm a2 s2
    (.ite (.eq cv (.bvVal 1 cv.size)) xv yv, s3)
  | .Literal val, s => (.bvVal val (termBits tm (.Literal val)), s)
  | .FLiteral val, s => (.fpVal val (ty_sort (tm (.FLiteral val))), s)
  | .UndefValue, s =>
    let x := Z3Expr.const ("undef_" ++ toString (s.fresh + 1)) (ty_sort (tm .UndefValue))
    (x, { s with fresh := s.fresh + 1, qvars := s.qvars ++ [x] })
  | .AddCnxp x y, s =>
    let (xv, s1) := eval tm x s
    let (yv, s2) := eval tm y s1
    (.add xv yv, s2)
  | .SubCnxp x y, s =>
    let (xv, s1) := eval tm x s
    let (yv, s2) := eval tm y s1
    (.sub xv yv, s2)
  | .MulCnxp x y, s =>
    let (xv, s1) := eval tm x s
    let (yv, s2) := eval tm y s1
    (.mul xv yv, s2)
  | .XorCnxp x y, s =>
    let (xv, s1) := eval tm x s
    let (yv, s2) := eval tm y s1
    (.bxor xv yv, s2)
  | .NotCnxp x, s =>
    let (xv, s1) := eval tm x s
    (.bnot xv, s1)
  | .NegCnxp x, s =>
    let (xv, s1) := eval tm x s
    (.neg xv, s1)
  | .NotPred p, s =>
    let (pv, s1) := eval tm p s
    (.not pv, s1)
  | .Comparison op x y, s =>
    let (xv, s1) := eval tm x s
    let (yv, s2) := eval tm y s1
    (cmpExpr op xv yv, s2)
  | .IntMinPred a, s =>
    let (xv, s1) := eval tm a s
    (.eq xv (.bvVal (2 ^ (xv.size - 1) : Int) xv.size), s1)
  | .Power2Pred a, s =>
    let (xv, s1) := eval tm a s
    if is_constZ3 xv then (power2Formula xv, s1)
    else
      let (c, s2) := freshBool s1
      (c, s2.addDefs [.implies c (power2Formula xv)])
  | .Power2OrZPred a, s =>
    let (xv, s1) := eval tm a s
    if is_constZ3 xv then (power2OrZFormula xv, s1)
    else
      let (c, s2) := freshBool s1
      (c, s2.addDefs [.implies c (power2OrZFormula xv)])
  | .ShiftedMaskPred a, s =>
    let (xv, s1) := eval tm a s
    let v := Z3Expr.bor (.sub xv (.bvVal 1 xv.size)) xv
    (.andN [.ne v (.bvVal 0 v.size),
      .eq (.band (.add v (.bvVal 1 v.size)) v) (.bvVal 0 v.size)], s1)
  | .MaskZeroPred a b, s =>
    let (xv, s1) := eval tm a s
    let (yv, s2) := eval tm b s1
    if is_const a && is_const b then (maskZeroFormula xv yv, s2)
    else
      let (c, s3) := freshBool s2
      (c, s3.addDefs [.implies c (maskZeroFormula xv yv)])
  | .NSWAddPred a b, s =>
    let (xv, s1) := eval tm a s
    let (yv, s2) := eval tm b s1
    if is_const a && is_const b then (nswAddFormula xv yv, s2)
    else
      let (c, s3) := freshBool s2
      (c, s3.addDefs [.implies c (nswAddFormula xv yv)])
  | .NUWAddPred a b, s =>
    let (xv, s1) := eval tm a s
    let (yv, s2) := eval tm b s1
    if is_const a && is_const b then (nuwAddFormula xv yv, s2)
    else
      let (c, s3) := freshBool s2
      (c, s3.addDefs [.implies c (nuwAddFormula xv yv)])
  | .NSWSubPred a b, s =>
    let (xv, s1) := eval tm a s
    let (yv, s2) := eval tm b s1
    if is_const a && is_const b then (nswSubFormula xv yv, s2)
    else
      let (c, s3) := freshBool s2
      (c, s3.addDefs [.implies c (nswSubFormula xv yv)])
  | .NUWSubPred a b, s =>
    let (xv, s1) := eval tm a s
    let (yv, s2) := eval tm b s1
    if is_const a && is_const b then (nuwSubFormula xv yv, s2)
    else
      let (c, s3) := freshBool s2
      (c, s3.addDefs [.implies c (nuwSubFormula xv yv)])
  | .NSWMulPred a b, s =>
    let (xv, s1) := eval tm a s
    let (yv, s2) := eval tm b s1
    (.eq (.mul (.signExt xv.size xv) (.signExt xv.size yv))
      (.signExt xv.size (.mul xv yv)), s2)
  | .NUWMulPred a b, s =>
    let (xv, s1) := eval tm a s
    let (yv, s2) := eval tm b s1
    (.eq (.mul (.zeroExt xv.size xv) (.zeroExt xv.size yv))
      (.zeroExt xv.size (.mul xv yv)), s2)
  | .NUWShlPred a b, s =>
    let (xv, s1) := eval tm a s
    let (yv, s2) := eval tm b s1
    (.eq (.lshr (.shl xv yv) yv) xv, s2)
  | .OneUsePred _, s => (.boolVal true, s)

/-- The result tuple of `SMTTranslator.__call__`: translation, definedness
conditions, non-poison conditions, quantified variables, plus the
translator state afterwards (its fresh counter persists between calls). -/
structure CallResult where
  v : Z3Expr
  defs : List Z3Expr
  nops : List Z3Expr
  qvars : List Z3Expr
  state : SMTState

/-- `SMTTranslator.__call__`: clear `defs`, `nops` and `qvars` (the fresh
counter is kept), translate, and return everything. -/
def smtCall (tm : TypeModel) (t : Term) (s : SMTState) : CallResult :=
  let r := eval tm t { s with defs := [], nops := [], qvars := [] }
  ⟨r.1, r.2.defs, r.2.nops, r.2.qvars, r.2⟩

/-- Modelled from the spec: `subterms` of the missing `language.py` is a
depth-first iteration over reachable subterms with a seen set; only its
`Input` elements matter here, so the depth-first input occurrences are
collected directly (each node first, then its children left to right). -/
def inputsWithDups : Term → List Term
  | .Input n => [.Input n]
  | .Literal _ => []
  | .FLiteral _ => []
  | .UndefValue => []
  | .AddInst x y _ => inputsWithDups x ++ inputsWithDups y
  | .SubInst x y _ => inputsWithDups x ++ inputsWithDups y
  | .MulInst x y _ => inputsWithDups x ++ inputsWithDups y
  | .SDivInst x y _ => inputsWithDups x ++ inputsWithDups y
  | .UDivInst x y _ => inputsWithDups x ++ inputsWithDups y
  | .SRemInst x y => inputsWithDups x ++ inputsWithDups y
  | .URemInst x y => inputsWithDups x ++ inputsWithDups y
  | .ShlInst x y _ => inputsWithDups x ++ inputsWithDups y
  | .AShrInst x y _ => inputsWithDups x ++ inputsWithDups y
  | .LShrInst x y _ => inputsWithDups x ++ inputsWithDups y
  | .AndInst x y => inputsWithDups x ++ inputsWithDups y
  | .OrInst x y => inputsWithDups x ++ inputsWithDups y
  | .XorInst x y => inputsWithDups x ++ inputsWithDups y
  | .FAddInst x y _ => inputsWithDups x ++ inputsWithDups y
  | .FSubInst x y _ => inputsWithDups x ++ inputsWithDups y
  | .FMulInst x y _ => inputsWithDups x ++ inputsWithDups y
  | .FDivInst x y _ => inputsWithDups x ++ inputsWithDups y
  | .FRemInst x y _ => inputsWithDups x ++ inputsWithDups y
  | .SExtInst a => inputsWithDups a
  | .ZExtInst a => inputsWithDups a
  | .TruncInst a => inputsWithDups a
  | .ZExtOrTruncInst a => inputsWithDups a
  | .IcmpInst _ x y => inputsWithDups x ++ inputsWithDups y
  | .SelectInst c x y => inputsWithDups c ++ inputsWithDups x ++ inputsWithDups y
  | .AddCnxp x y => inputsWithDups x ++ inputsWithDups y
  | .SubCnxp x y => inputsWithDups x ++ inputsWithDups y
  | .MulCnxp x y => inputsWithDups x ++ inputsWithDups y
  | .XorCnxp x y => inputsWithDups x ++ inputsWithDups y
  | .NotCnxp x => inputsWithDups x
  | .NegCnxp x => inputsWithDups x
  | .NotPred p => inputsWithDups p
  | .Comparison _ x y => inputsWithDups x ++ inputsWithDups y
  | .IntMinPred a => inputsWithDups a
  | .Power2Pred a => inputsWithDups a
  | .Power2OrZPred a => inputsWithDups a
  | .ShiftedMaskPred a => inputsWithDups a
  | .MaskZeroPred a b => inputsWithDups a ++ inputsWithDups b
  | .NSWAddPred a b => inputsWithDups a ++ inputsWithDups b
  | .NUWAddPred a b => inputsWithDups a ++ inputsWithDups b
  | .NSWSubPred a b => inputsWithDups a ++ inputsWithDups b
  | .NUWSubPred a b => inputsWithDups a ++ inputsWithDups b
  | .NSWMulPred a b => inputsWithDups a ++ inputsWithDups b
  | .NUWMulPred a b => inputsWithDups a ++ inputsWithDups b
  | .NUWShlPred a b => inputsWithDups a ++ inputsWithDups b
  | .OneUsePred a => inputsWithDups a

/-- Keep the first occurrence of each element, as a seen-set based
iteration does. -/
def firstDedup : List Term → List Term → List Term
  | [], _ => []
  | t :: ts, seen =>
    if t ∈ seen then firstDedup ts seen else t :: firstDedup ts (t :: seen)

/-- `_get_inputs`: the distinct `Input` subterms in depth-first order. -/
def get_inputs (t : Term) : List Term :=
  firstDedup (inputsWithDups t) []

/-- Opaque handle to a backend model. -/
structure Z3Model where
  id : Nat
deriving DecidableEq, Repr

/-- Result of `Solver.check`.  An unknown result may or may not come with
a candidate model; `Solver.model` raises when none is available. -/
inductive SolverResult where
  | sat (m : Z3Model)
  | unsat
  | unknown (m : Option Z3Model)

/-- `Solver.model()`: available after sat, possibly after unknown, and an
exception otherwise. -/
def SolverResult.getModel : SolverResult → Except String Z3Model
  | .sat m => .ok m
  | .unknown (some m) => .ok m
  | .unknown none => .error ("model is not available")
  | .unsat => .error ("model is not available")

/-- Whether a type is a `FloatType` instance. -/
def Ty.isFloat : Ty → Bool
  | .half => true
  | .single => true
  | .double => true
  | .x86fp80 => true
  | .int _ => false
  | .ptr => false

/-- The three causes of a refinement failure. -/
inductive Cause where
  | UB
  | POISON
  | UNEQUAL
deriving DecidableEq, Repr

/-- The structured counterexample report. -/
structure RefinementError where
  cause : Cause
  model : Z3Model
  types : TypeModel
  src : Term
  srcv : Z3Expr
  tgtv : Z3Expr
  ids : List (Term × Z3Expr)

/-- `check_refinement_at`: translate source, target and the optional
precondition with one translator; the precondition expression and its
definedness conditions extend the source definedness list; then issue the
undefinedness, poison and equality queries in that order, quantifying over
the source qvars when present.  A query whose result is not unsat stops
the check and reports, packaging the solver model (raising when it is
unavailable) and the evaluation of each input of `src`. -/
def check_refinement_at (solver : List Z3Expr → SolverResult)
    (poison_undef : Bool) (tm : TypeModel) (src tgt : Term)
    (pre : Option Term) : Except String (Option RefinementError) :=
  let c1 := smtCall tm src initState
  let sv := c1.v
  let sp := c1.nops
  let qvars := c1.qvars
  let c2 := smtCall tm tgt c1.state
  let tv := c2.v
  let td := c2.defs
  let tp := c2.nops
  let sdsmt : List Z3Expr × SMTState :=
    match pre with
    | some p =>
      let c3 := smtCall tm p c2.state
      (c1.defs ++ [c3.v] ++ c3.defs, c3.state)
    | none => (c1.defs, c2.state)
  let sd := sdsmt.1
  let smt3 := sdsmt.2
  let expr1 := if poison_undef then sd ++ sp ++ [Z3Expr.not (.andN td)]
               else sd ++ [Z3Expr.not (.andN td)]
  let expr1 := if qvars.isEmpty then expr1 else [Z3Expr.forallQ qvars (.andN expr1)]
  match solver expr1 with
  | .unsat =>
    let expr2 := sd ++ sp ++ [Z3Expr.not (.andN tp)]
    let expr2 := if qvars.isEmpty then expr2 else [Z3Expr.forallQ qvars (.andN expr2)]
    match solver expr2 with
    | .unsat =>
      let expr3 :=
        if (tm src).isFloat then
          sd ++ sp ++ [Z3Expr.ne sv tv, Z3Expr.not (.andN [.fpIsNaN sv, .fpIsNaN tv])]
        else sd ++ sp ++ [Z3Expr.ne sv tv]
      let expr3 := if qvars.isEmpty then expr3 else [Z3Expr.forallQ qvars (.andN expr3)]
      match solver expr3 with
      | .unsat => .ok none
      | r => r.getModel.map (fun m =>
          some ⟨.UNEQUAL, m, tm, src, sv, tv,
            (get_inputs src).map (fun i => (i, (eval tm i smt3).1))⟩)
    | r => r.getModel.map (fun m =>
        some ⟨.POISON, m, tm, src, sv, tv,
          (get_inputs src).map (fun i => (i, (eval tm i smt3).1))⟩)
  | r => r.getModel.map (fun m =>
      some ⟨.UB, m, tm, src, sv, tv,
        (get_inputs src).map (fun i => (i, (eval tm i smt3).1))⟩)

/-- The data of the three queries of `check_refinement_at`, named so the
theorems can refer to them: source and target values, the strengthened
source definedness list, the other condition lists, the quantified
variables, the packaged input evaluations, and the three assertion lists
in issue order. -/
structure RefData where
  sv : Z3Expr
  tv : Z3Expr
  sd : List Z3Expr
  sp : List Z3Expr
  td : List Z3Expr
  tp : List Z3Expr
  qvars : List Z3Expr
  ids : List (Term × Z3Expr)
  q1 : List Z3Expr
  q2 : List Z3Expr
  q3 : List Z3Expr

/-- The queries `check_refinement_at` issues, computed by the same
translation sequence. -/
def refinementData (poison_undef : Bool) (tm : TypeModel) (src tgt : Term)
    (pre : Option Term) : RefData :=
  let c1 := smtCall tm src initState
  let sv := c1.v
  let sp := c1.nops
  let qvars := c1.qvars
  let c2 := smtCall tm tgt c1.state
  let tv := c2.v
  let td := c2.defs
  let tp := c2.nops
  let sdsmt : List Z3Expr × SMTState :=
    match pre with
    | some p =>
      let c3 := smtCall tm p c2.state
      (c1.defs ++ [c3.v] ++ c3.defs, c3.state)
    | none => (c1.defs, c2.state)
  let sd := sdsmt.1
  let smt3 := sdsmt.2
  let expr1 := if poison_undef then sd ++ sp ++ [Z3Expr.not (.andN td)]
               else sd ++ [Z3Expr.not (.andN td)]
  let expr1 := if qvars.isEmpty then expr1 else [Z3Expr.forallQ qvars (.andN expr1)]
  let expr2 := sd ++ sp ++ [Z3Expr.not (.andN tp)]
  let expr2 := if qvars.isEmpty then expr2 else [Z3Expr.forallQ qvars (.andN expr2)]
  let expr3 :=
    if (tm src).isFloat then
      sd ++ sp ++ [Z3Expr.ne sv tv, Z3Expr.not (.andN [.fpIsNaN sv, .fpIsNaN tv])]
    else sd ++ sp ++ [Z3Expr.ne sv tv]
  let expr3 := if qvars.isEmpty then expr3 else [Z3Expr.forallQ qvars (.andN expr3)]
  ⟨sv, tv, sd, sp, td, tp, qvars,
    (get_inputs src).map (fun i => (i, (eval tm i smt3).1)),
    expr1, expr2, expr3⟩

/-- Wrap an assertion list in a single universal quantification when there
are quantified variables, as each query does. -/
def quantWrap (qs es : List Z3Expr) : List Z3Expr :=
  if qs.isEmpty then es else [Z3Expr.forallQ qs (.andN es)]

/-- C1: the checker issues the three queries in the order UB, Poison,
Equality, all under the same quantification over the accumulated source
qvars; the first query whose negated-goal assertion is satisfiable stops
the check with a RefinementError whose cause is UB, POISON or UNEQUAL
respectively, packaging the solver model and the evaluations of the
inputs of src; when all three are unsat the result is None.  For a
float-typed source the equality query additionally excludes the case in
which both values are NaN. -/
theorem check_refinement_at_query_order (solver : List Z3Expr → SolverResult)
    (poison_undef : Bool) (tm : TypeModel) (src tgt : Term) (pre : Option Term) :
    (∀ m, solver (refinementData poison_undef tm src tgt pre).q1 = .sat m →
      check_refinement_at solver poison_undef tm src tgt pre
        = .ok (some ⟨.UB, m, tm, src,
            (refinementData poison_undef tm src tgt pre).sv,
            (refinementData poison_undef tm src tgt pre).tv,
            (refinementData poison_undef tm src tgt pre).ids⟩))
  ∧ (∀ m, solver (refinementData poison_undef tm src tgt pre).q1 = .unsat →
      solver (refinementData poison_undef tm src tgt pre).q2 = .sat m →
      check_refinement_at solver poison_undef tm src tgt pre
        = .ok (some ⟨.POISON, m, tm, src,
            (refinementData poison_undef tm src tgt pre).sv,
            (refinementData poison_undef tm src tgt pre).tv,
            (refinementData poison_undef tm src tgt pre).ids⟩))
  ∧ (∀ m, solver (refinementData poison_undef tm src tgt pre).q1 = .unsat →
      solver (refinementData poison_undef tm src tgt pre).q2 = .unsat →
      solver (refinementData poison_undef tm src tgt pre).q3 = .sat m →
      check_refinement_at solver poison_undef tm src tgt pre
        = .ok (some ⟨.UNEQUAL, m, tm, src,
            (refinementData poison_undef tm src tgt pre).sv,
            (refinementData poison_undef tm src tgt pre).tv,
            (refinementData poison_undef tm src tgt pre).ids⟩))
  ∧ (solver (refinementData poison_undef tm src tgt pre).q1 = .unsat →
      solver (refinementData poison_undef tm src tgt pre).q2 = .unsat →
      solver (refinementData poison_undef tm src tgt pre).q3 = .unsat →
      check_refinement_at solver poison_undef tm src tgt pre = .ok none)
  ∧ ((tm src).isFloat = true →
      (refinementData poison_undef tm src tgt pre).q3
        = quantWrap (refinementData poison_undef tm src tgt pre).qvars
            ((refinementData poison_undef tm src tgt pre).sd
              ++ (refinementData poison_undef tm src tgt pre).sp
              ++ [Z3Expr.ne (refinementData poison_undef tm src tgt pre).sv
                    (refinementData poison_undef tm src tgt pre).tv,
                  Z3Expr.not (.andN
                    [.fpIsNaN (refinementData poison_undef tm src tgt pre).sv,
                     .fpIsNaN (refinementData poison_undef tm src tgt pre).tv])])) := by
  refine ⟨?_, ?_, ?_, ?_, ?_⟩
  · intro m h
    simp only [refinementData] at h ⊢
    simp only [check_refinement_at]
    rw [h]
    rfl
  · intro m h1 h2
    simp only [refinementData] at h1 h2 ⊢
    simp only [check_refinement_at]
    rw [h1, h2]
    rfl
  · intro m h1 h2 h3
    simp only [refinementData] at h1 h2 h3 ⊢
    simp only [check_refinement_at]
    rw [h1, h2, h3]
    rfl
  · intro h1 h2 h3
    simp only [refinementData] at h1 h2 h3
    simp only [check_refinement_at]
    rw [h1, h2, h3]
  · intro hfl
    simp only [refinementData, quantWrap, hfl, if_true]

/-- Witness for C1: a solver that always answers unsat verifies a simple
vector. -/
theorem check_refinement_at_query_order_witness :
    check_refinement_at (fun _ => SolverResult.unsat) false (fun _ => Ty.int 8)
      (.Input ("x")) (.Literal 0) none = .ok none :=
  (check_refinement_at_query_order (fun _ => SolverResult.unsat) false
    (fun _ => Ty.int 8) (.Input ("x")) (.Literal 0) none).2.2.2.1 rfl rfl rfl

/-- C7 counterexample: a solver that answers unknown (with a candidate
model) on every query makes check_refinement_at produce a RefinementError
for the first query, rather than proceeding as if the query were unsat
(which would verify the vector and return None). -/
theorem unknown_produces_error_cex :
    check_refinement_at (fun _ => SolverResult.unknown (some ⟨0⟩)) false
      (fun _ => Ty.int 8) (.Input ("x")) (.Literal 0) none
      = .ok (some ⟨.UB, ⟨0⟩, (fun _ => Ty.int 8), .Input ("x"),
          .const ("x") (.bv 8), .bvVal 0 8,
          [(.Input ("x"), .const ("x") (.bv 8))]⟩)
  ∧ check_refinement_at (fun _ => SolverResult.unknown (some ⟨0⟩)) false
      (fun _ => Ty.int 8) (.Input ("x")) (.Literal 0) none
      ≠ .ok none := by
  refine ⟨rfl, ?_⟩
  intro h
  rw [show check_refinement_at (fun _ => SolverResult.unknown (some ⟨0⟩)) false
      (fun _ => Ty.int 8) (.Input ("x")) (.Literal 0) none
      = .ok (some ⟨.UB, ⟨0⟩, (fun _ => Ty.int 8), .Input ("x"),
          .const ("x") (.bv 8), .bvVal 0 8,
          [(.Input ("x"), .const ("x") (.bv 8))]⟩) from rfl] at h
  exact Option.noConfusion (Except.ok.inj h)

/-- C7 amended: a query result that is not unsat — sat or unknown alike —
takes the counterexample branch: when the backend supplies a model, a
RefinementError for that query is produced; when an unknown comes with no
model, the model lookup raises.  Only an unsat result advances to the
next query. -/
theorem unknown_treated_as_sat (solver : List Z3Expr → SolverResult)
    (poison_undef : Bool) (tm : TypeModel) (src tgt : Term) (pre : Option Term) :
    (∀ m, solver (refinementData poison_undef tm src tgt pre).q1 = .unknown (some m) →
      check_refinement_at solver poison_undef tm src tgt pre
        = .ok (some ⟨.UB, m, tm, src,
            (refinementData poison_undef tm src tgt pre).sv,
            (refinementData poison_undef tm src tgt pre).tv,
            (refinementData poison_undef tm src tgt pre).ids⟩))
  ∧ (solver (refinementData poison_undef tm src tgt pre).q1 = .unknown none →
      check_refinement_at solver poison_undef tm src tgt pre
        = .error ("model is not available"))
  ∧ (∀ m, solver (refinementData poison_undef tm src tgt pre).q1 = .unsat →
      solver (refinementData poison_undef tm src tgt pre).q2 = .unknown (some m) →
      check_refinement_at solver poison_undef tm src tgt pre
        = .ok (some ⟨.POISON, m, tm, src,
            (refinementData poison_undef tm src tgt pre).sv,
            (refinementData poison_undef tm src tgt pre).tv,
            (refinementData poison_undef tm src tgt pre).ids⟩))
  ∧ (∀ m, solver (refinementData poison_undef tm src tgt pre).q1 = .unsat →
      solver (refinementData poison_undef tm src tgt pre).q2 = .unsat →
      solver (refinementData poison_undef tm src tgt pre).q3 = .unknown (some m) →
      check_refinement_at solver poison_undef tm src tgt pre
        = .ok (some ⟨.UNEQUAL, m, tm, src,
            (refinementData poison_undef tm src tgt pre).sv,
            (refinementData poison_undef tm src tgt pre).tv,
            (refinementData poison_undef tm src tgt pre).ids⟩)) := by
  refine ⟨?_, ?_, ?_, ?_⟩
  · intro m h
    simp only [refinementData] at h ⊢
    simp only [check_refinement_at]
    rw [h]
    rfl
  · intro h
    simp only [refinementData] at h
    simp only [check_refinement_at]
    rw [h]
    rfl
  · intro m h1 h2
    simp only [refinementData] at h1 h2 ⊢
    simp only [check_refinement_at]
    rw [h1, h2]
    rfl
  · intro m h1 h2 h3
    simp only [refinementData] at h1 h2 h3 ⊢
    simp only [check_refinement_at]
    rw [h1, h2, h3]
    rfl

/-- Witness for the amended C7 at a concrete always-unknown solver. -/
theorem unknown_treated_as_sat_witness :
    check_refinement_at (fun _ => SolverResult.unknown none) false
      (fun _ => Ty.int 8) (.Input ("x")) (.Literal 0) none
      = .error ("model is not available") :=
  (unknown_treated_as_sat (fun _ => SolverResult.unknown none) false
    (fun _ => Ty.int 8) (.Input ("x")) (.Literal 0) none).2.1 rfl

/-- C10: with a precondition, the translated precondition expression and
its definedness conditions are appended to the source definedness list
before any query is issued, and all three queries extend the strengthened
list; with no precondition, the queries use the source list alone. -/
theorem precondition_in_all_queries (poison_undef : Bool) (tm : TypeModel)
    (src tgt p : Term) :
    ((refinementData poison_undef tm src tgt (some p)).sd
        = (smtCall tm src initState).defs
          ++ [(smtCall tm p (smtCall tm tgt (smtCall tm src initState).state).state).v]
          ++ (smtCall tm p (smtCall tm tgt (smtCall tm src initState).state).state).defs)
  ∧ ((refinementData poison_undef tm src tgt none).sd = (smtCall tm src initState).defs)
  ∧ (∀ pre : Option Term,
      (refinementData poison_undef tm src tgt pre).q1
          = quantWrap (refinementData poison_undef tm src tgt pre).qvars
              ((if poison_undef then
                  (refinementData poison_undef tm src tgt pre).sd
                    ++ (refinementData poison_undef tm src tgt pre).sp
                else (refinementData poison_undef tm src tgt pre).sd)
                ++ [Z3Expr.not (.andN (refinementData poison_undef tm src tgt pre).td)])
      ∧ (refinementData poison_undef tm src tgt pre).q2
          = quantWrap (refinementData poison_undef tm src tgt pre).qvars
              ((refinementData poison_undef tm src tgt pre).sd
                ++ (refinementData poison_undef tm src tgt pre).sp
                ++ [Z3Expr.not (.andN (refinementData poison_undef tm src tgt pre).tp)])
      ∧ (refinementData poison_undef tm src tgt pre).q3
          = quantWrap (refinementData poison_undef tm src tgt pre).qvars
              (if (tm src).isFloat then
                (refinementData poison_undef tm src tgt pre).sd
                  ++ (refinementData poison_undef tm src tgt pre).sp
                  ++ [Z3Expr.ne (refinementData poison_undef tm src tgt pre).sv
                        (refinementData poison_undef tm src tgt pre).tv,
                      Z3Expr.not (.andN
                        [.fpIsNaN (refinementData poison_undef tm src tgt pre).sv,
                         .fpIsNaN (refinementData poison_undef tm src tgt pre).tv])]
              else
                (refinementData poison_undef tm src tgt pre).sd
                  ++ (refinementData poison_undef tm src tgt pre).sp
                  ++ [Z3Expr.ne (refinementData poison_undef tm src tgt pre).sv
                        (refinementData poison_undef tm src tgt pre).tv])) := by
  refine ⟨rfl, rfl, ?_⟩
  intro pre
  refine ⟨?_, ?_, ?_⟩ <;>
    simp only [refinementData, quantWrap] <;>
    rcases poison_undef <;> rcases (tm src).isFloat <;> rfl

theorem foldl_addNops_defs {β : Type} (g : β → Z3Expr) :
    ∀ (flags : List β) (st : SMTState),
      (flags.foldl (fun st f => st.addNops [g f]) st).defs = st.defs := by
  intro flags
  induction flags with
  | nil => intro st; rfl
  | cons f fs ih => intro st; rw [List.foldl_cons, ih]; rfl

theorem foldl_addNops_nops {β : Type} (g : β → Z3Expr) :
    ∀ (flags : List β) (st : SMTState),
      (flags.foldl (fun st f => st.addNops [g f]) st).nops
        = st.nops ++ flags.map g := by
  intro flags
  induction flags with
  | nil => intro st; simp
  | cons f fs ih =>
    intro st
    rw [List.foldl_cons, ih]
    simp [SMTState.addNops]

theorem foldl_addNops_fresh {β : Type} (g : β → Z3Expr) :
    ∀ (flags : List β) (st : SMTState),
      (flags.foldl (fun st f => st.addNops [g f]) st).fresh = st.fresh := by
  intro flags
  induction flags with
  | nil => intro st; rfl
  | cons f fs ih => intro st; rw [List.foldl_cons, ih]; rfl

/-- C5: the division and remainder instructions add a nonzero-divisor
condition to defs, with the signed ones additionally excluding the
INT_MIN / -1 case, and the shift instructions add an unsigned bound of
the shift amount by the bit width; in each case the conditions are
appended right after the conditions of the evaluated operands. -/
theorem div_rem_shift_definedness (tm : TypeModel) (x y : Term) (s : SMTState) :
    let xv := (eval tm x s).1
    let s1 := (eval tm x s).2
    let yv := (eval tm y s1).1
    let s2 := (eval tm y s1).2
    (∀ flags, (eval tm (.SDivInst x y flags) s).2.defs
        = s2.defs ++ [Z3Expr.ne yv (.bvVal 0 yv.size),
            .orN [.ne xv (.bvVal (2 ^ (xv.size - 1) : Int) xv.size),
                  .ne yv (.bvVal (-1) yv.size)]])
  ∧ (∀ flags, (eval tm (.UDivInst x y flags) s).2.defs
        = s2.defs ++ [Z3Expr.ne yv (.bvVal 0 yv.size)])
  ∧ ((eval tm (.SRemInst x y) s).2.defs
        = s2.defs ++ [Z3Expr.ne yv (.bvVal 0 yv.size),
            .orN [.ne xv (.bvVal (2 ^ (xv.size - 1) : Int) xv.size),
                  .ne yv (.bvVal (-1) yv.size)]])
  ∧ ((eval tm (.URemInst x y) s).2.defs
        = s2.defs ++ [Z3Expr.ne yv (.bvVal 0 yv.size)])
  ∧ (∀ flags, (eval tm (.ShlInst x y flags) s).2.defs
        = s2.defs ++ [Z3Expr.ult yv (.bvVal (yv.size : Int) yv.size)])
  ∧ (∀ flags, (eval tm (.AShrInst x y flags) s).2.defs
        = s2.defs ++ [Z3Expr.ult yv (.bvVal (yv.size : Int) yv.size)])
  ∧ (∀ flags, (eval tm (.LShrInst x y flags) s).2.defs
        = s2.defs ++ [Z3Expr.ult yv (.bvVal (yv.size : Int) yv.size)]) := by
  refine ⟨?_, ?_, ?_, ?_, ?_, ?_, ?_⟩ <;>
    first
      | (intro flags
         simp only [eval, foldl_addNops_defs]
         rfl)
      | (simp only [eval]
         rfl)

/-- C4 counterexample: evaluating an FAddInst carrying the nnan flag adds
the three NaN-exclusion conditions to defs and nothing to nops, so nnan
(and likewise ninf) does not contribute to the non-poison accumulator. -/
theorem fp_flag_goes_to_defs_cex :
    ((eval (fun _ => Ty.single) (.FAddInst (.Input ("x")) (.Input ("y")) [.nnan])
        initState).2.nops = [])
  ∧ ((eval (fun _ => Ty.single) (.FAddInst (.Input ("x")) (.Input ("y")) [.nnan])
        initState).2.defs
      = [.not (.fpIsNaN (.const ("x") .fp32)), .not (.fpIsNaN (.const ("y") .fp32)),
         .not (.fpIsNaN (.fadd (.const ("x") .fp32) (.const ("y") .fp32)))]) :=
  ⟨rfl, rfl⟩

/-- C4 amended: the nsw, nuw and exact flags append their conditions to
the non-poison accumulator, one per flag in flag order; the nnan and ninf
flags of the floating-point instructions instead append their conditions
to the definedness accumulator, leaving the non-poison accumulator
unchanged. -/
theorem flag_accumulators (tm : TypeModel) (x y : Term) (s : SMTState) :
    let xv := (eval tm x s).1
    let s1 := (eval tm x s).2
    let yv := (eval tm y s1).1
    let s2 := (eval tm y s1).2
    (∀ flags, (eval tm (.AddInst x y flags) s).2.nops
        = s2.nops ++ flags.map (fun f => addPoison f xv yv))
  ∧ (∀ flags, (eval tm (.SubInst x y flags) s).2.nops
        = s2.nops ++ flags.map (fun f => subPoison f xv yv))
  ∧ (∀ flags, (eval tm (.MulInst x y flags) s).2.nops
        = s2.nops ++ flags.map (fun f => mulPoison f xv yv))
  ∧ (∀ flags, (eval tm (.ShlInst x y flags) s).2.nops
        = s2.nops ++ flags.map (fun f => shlPoison f xv yv))
  ∧ (∀ flags, (eval tm (.SDivInst x y flags) s).2.nops
        = s2.nops ++ flags.map (fun f => sdivPoison f xv yv))
  ∧ (∀ flags, (eval tm (.UDivInst x y flags) s).2.nops
        = s2.nops ++ flags.map (fun f => udivPoison f xv yv))
  ∧ (∀ flags, (eval tm (.AShrInst x y flags) s).2.nops
        = s2.nops ++ flags.map (fun f => ashrPoison f xv yv))
  ∧ (∀ flags, (eval tm (.LShrInst x y flags) s).2.nops
        = s2.nops ++ flags.map (fun f => lshrPoison f xv yv))
  ∧ (∀ flags, (eval tm (.AddInst x y flags) s).2.defs = s2.defs)
  ∧ (∀ flags, (eval tm (.FAddInst x y flags) s).2.nops = s2.nops
      ∧ (eval tm (.FAddInst x y flags) s).2.defs
          = s2.defs ++ (if FastMathFlag.nnan ∈ flags then fpNaNDefs .fadd xv yv else [])
              ++ (if FastMathFlag.ninf ∈ flags then fpInfDefs .fadd xv yv else []))
  ∧ (∀ flags, (eval tm (.FSubInst x y flags) s).2.nops = s2.nops
      ∧ (eval tm (.FSubInst x y flags) s).2.defs
          = s2.defs ++ (if FastMathFlag.nnan ∈ flags then fpNaNDefs .fsub xv yv else [])
              ++ (if FastMathFlag.ninf ∈ flags then fpInfDefs .fsub xv yv else []))
  ∧ (∀ flags, (eval tm (.FMulInst x y flags) s).2.nops = s2.nops
      ∧ (eval tm (.FMulInst x y flags) s).2.defs
          = s2.defs ++ (if FastMathFlag.nnan ∈ flags then fpNaNDefs .fmul xv yv else [])
              ++ (if FastMathFlag.ninf ∈ flags then fpInfDefs .fmul xv yv else []))
  ∧ (∀ flags, (eval tm (.FDivInst x y flags) s).2.nops = s2.nops
      ∧ (eval tm (.FDivInst x y flags) s).2.defs
          = s2.defs ++ (if FastMathFlag.nnan ∈ flags then fpNaNDefs .fdiv xv yv else [])
              ++ (if FastMathFlag.ninf ∈ flags then fpInfDefs .fdiv xv yv else []))
  ∧ (∀ flags, (eval tm (.FRemInst x y flags) s).2.nops = s2.nops
      ∧ (eval tm (.FRemInst x y flags) s).2.defs
          = s2.defs ++ (if FastMathFlag.nnan ∈ flags then fpNaNDefs .frem xv yv else [])
              ++ (if FastMathFlag.ninf ∈ flags then fpInfDefs .frem xv yv else [])) := by
  refine ⟨?_, ?_, ?_, ?_, ?_, ?_, ?_, ?_, ?_, ?_, ?_, ?_, ?_, ?_⟩ <;>
    intro flags
  all_goals
    first
      | (refine ⟨?_, ?_⟩ <;>
          (simp only [eval]
           by_cases h1 : FastMathFlag.nnan ∈ flags <;>
             by_cases h2 : FastMathFlag.ninf ∈ flags <;>
               simp [h1, h2, SMTState.addDefs, SMTState.addNops]))
      | (simp only [eval, foldl_addNops_nops, foldl_addNops_defs]
         try rfl)

/-- C3 counterexample: NSWMulPred applied to two non-constant inputs
returns the overflow formula directly and leaves defs untouched, instead
of allocating a fresh boolean and asserting an implication as the claim
requires for non-constant arguments. -/
theorem must_analysis_shape_cex :
    ((eval (fun _ => Ty.int 8) (.NSWMulPred (.Input ("x")) (.Input ("y"))) initState).1
        = .eq (.mul (.signExt 8 (.const ("x") (.bv 8))) (.signExt 8 (.const ("y") (.bv 8))))
            (.signExt 8 (.mul (.const ("x") (.bv 8)) (.const ("y") (.bv 8)))))
  ∧ ((eval (fun _ => Ty.int 8) (.NSWMulPred (.Input ("x")) (.Input ("y"))) initState).2.defs
        = [])
  ∧ is_const (.Input ("x")) = false :=
  ⟨rfl, rfl, rfl⟩

/-- C3 amended: MaskZeroPred and the NSW/NUW add and sub predicates have
the must-analysis shape over their argument terms: the predicate formula
directly when both arguments are constant terms, otherwise a fresh
boolean constrained by an implication in defs.  Power2OrZPred always
takes the fresh-boolean path, because its constant test inspects the
translated Z3 expression, which is never an IR constant.  ShiftedMaskPred
and the NSWMul, NUWMul and NUWShl predicates always return the predicate
formula directly, adding nothing to defs. -/
theorem must_analysis_shapes (tm : TypeModel) (a b : Term) (s : SMTState) :
    let xv := (eval tm a s).1
    let s1 := (eval tm a s).2
    let yv := (eval tm b s1).1
    let s2 := (eval tm b s1).2
    ((is_const a && is_const b) = true →
      eval tm (.MaskZeroPred a b) s = (maskZeroFormula xv yv, s2)
      ∧ eval tm (.NSWAddPred a b) s = (nswAddFormula xv yv, s2)
      ∧ eval tm (.NUWAddPred a b) s = (nuwAddFormula xv yv, s2)
      ∧ eval tm (.NSWSubPred a b) s = (nswSubFormula xv yv, s2)
      ∧ eval tm (.NUWSubPred a b) s = (nuwSubFormula xv yv, s2))
  ∧ ((is_const a && is_const b) = false →
      eval tm (.MaskZeroPred a b) s
        = (.boolB ("ana_" ++ toString (s2.fresh + 1)),
           { s2 with
             fresh := s2.fresh + 1
             defs := s2.defs ++ [.implies (.boolB ("ana_" ++ toString (s2.fresh + 1)))
               (maskZeroFormula xv yv)] })
      ∧ eval tm (.NSWAddPred a b) s
        = (.boolB ("ana_" ++ toString (s2.fresh + 1)),
           { s2 with
             fresh := s2.fresh + 1
             defs := s2.defs ++ [.implies (.boolB ("ana_" ++ toString (s2.fresh + 1)))
               (nswAddFormula xv yv)] })
      ∧ eval tm (.NUWAddPred a b) s
        = (.boolB ("ana_" ++ toString (s2.fresh + 1)),
           { s2 with
             fresh := s2.fresh + 1
             defs := s2.defs ++ [.implies (.boolB ("ana_" ++ toString (s2.fresh + 1)))
               (nuwAddFormula xv yv)] })
      ∧ eval tm (.NSWSubPred a b) s
        = (.boolB ("ana_" ++ toString (s2.fresh + 1)),
           { s2 with
             fresh := s2.fresh + 1
             defs := s2.defs ++ [.implies (.boolB ("ana_" ++ toString (s2.fresh + 1)))
               (nswSubFormula xv yv)] })
      ∧ eval tm (.NUWSubPred a b) s
        = (.boolB ("ana_" ++ toString (s2.fresh + 1)),
           { s2 with
             fresh := s2.fresh + 1
             defs := s2.defs ++ [.implies (.boolB ("ana_" ++ toString (s2.fresh + 1)))
               (nuwSubFormula xv yv)] }))
  ∧ (eval tm (.Power2OrZPred a) s
      = (.boolB ("ana_" ++ toString (s1.fresh + 1)),
         { s1 with
           fresh := s1.fresh + 1
           defs := s1.defs ++ [.implies (.boolB ("ana_" ++ toString (s1.fresh + 1)))
             (power2OrZFormula xv)] }))
  ∧ (eval tm (.ShiftedMaskPred a) s
      = (.andN [.ne (Z3Expr.bor (.sub xv (.bvVal 1 xv.size)) xv)
            (.bvVal 0 (Z3Expr.bor (.sub xv (.bvVal 1 xv.size)) xv).size),
          .eq (.band (.add (Z3Expr.bor (.sub xv (.bvVal 1 xv.size)) xv)
                (.bvVal 1 (Z3Expr.bor (.sub xv (.bvVal 1 xv.size)) xv).size))
              (Z3Expr.bor (.sub xv (.bvVal 1 xv.size)) xv))
            (.bvVal 0 (Z3Expr.bor (.sub xv (.bvVal 1 xv.size)) xv).size)], s1))
  ∧ (eval tm (.NSWMulPred a b) s
      = (.eq (.mul (.signExt xv.size xv) (.signExt xv.size yv))
          (.signExt xv.size (.mul xv yv)), s2))
  ∧ (eval tm (.NUWMulPred a b) s
      = (.eq (.mul (.zeroExt xv.size xv) (.zeroExt xv.size yv))
          (.zeroExt xv.size (.mul xv yv)), s2))
  ∧ (eval tm (.NUWShlPred a b) s
      = (.eq (.lshr (.shl xv yv) yv) xv, s2)) := by
  refine ⟨?_, ?_, ?_, ?_, ?_, ?_, ?_⟩
  · intro h
    refine ⟨?_, ?_, ?_, ?_, ?_⟩ <;> (simp only [eval, h]; rfl)
  · intro h
    refine ⟨?_, ?_, ?_, ?_, ?_⟩ <;> (simp only [eval, h, freshBool]; rfl)
  · simp only [eval, is_constZ3, freshBool]
    rfl
  · rfl
  · rfl
  · rfl
  · rfl

/-- Witness for the amended C3: both branches at concrete arguments — two
symbolic-constant inputs take the direct branch, and at least one
non-constant argument takes the fresh-boolean branch. -/
theorem must_analysis_shapes_witness :
    eval (fun _ => Ty.int 8) (.MaskZeroPred (.Input ("C1")) (.Input ("C2"))) initState
      = (maskZeroFormula (.const ("C1") (.bv 8)) (.const ("C2") (.bv 8)),
         initState)
  ∧ eval (fun _ => Ty.int 8) (.MaskZeroPred (.Input ("x")) (.Input ("C2"))) initState
      = (.boolB ("ana_" ++ toString 1),
         { initState with
           fresh := 1
           defs := [.implies (.boolB ("ana_" ++ toString 1))
             (maskZeroFormula (.const ("x") (.bv 8)) (.const ("C2") (.bv 8)))] }) :=
  ⟨((must_analysis_shapes (fun _ => Ty.int 8) (.Input ("C1")) (.Input ("C2"))
      initState).1 rfl).1,
   ((must_analysis_shapes (fun _ => Ty.int 8) (.Input ("x")) (.Input ("C2"))
      initState).2.1 rfl).1⟩

end AliveSpec
